import Mathlib

/-!
# Path_maker: the interpreter of `main.c`

A shallow embedding of `main.c`: the lexer loop of `main`, the validation pass with
`check_path`, and the statement interpreter (`translate`, `go`, `make`, `ifPath_maker`,
`ifnot`) over an explicit machine state, and theorems about them.

* The token file `code.lex` is the list of its lines; `holder2` is the line buffer that
  every function shares; `fgets` moves one line from the file into the buffer, or the
  first `BUFF_SIZE - 1` characters of a line that is longer than a read, and, at the end
  of the file, leaves the buffer as it was and raises the end-of-file flag.
* `cwd` is the `char cwd[PATH_MAX]` buffer of `main`, read as the C string it holds.
* The file system is the set of paths that are directories; `stat` and
  `system("mkdir -p ...")` are the only two accesses, and both are recorded in the trace.
* A loop of the C program that need not terminate is a function with a fuel argument;
  `none` means that the fuel ran out.
-/

namespace PathMaker

/-! ## C library -/

/-- The test `strcasecmp(a, b) == 0`: equality of the two strings up to ASCII case. -/
def strcaseeq (a b : String) : Bool :=
  a.data.map Char.toLower == b.data.map Char.toLower

/-- The test `strcmp(a, b) == 0`. -/
def streq (a b : String) : Bool :=
  a == b

/-! ## File system -/

/-- Modelled from the spec: FilesystemGateway (section 6), the external collaborator behind
`stat` and `system("mkdir -p ...")`. A file system is the list of the paths that are
directories. -/
abbrev FS := List String

/-- Modelled from the spec: `exists(path)` answering `Directory`; in the source
`stat(folder, &sb) == 0 && S_ISDIR(sb.st_mode)`. -/
def isDir (fs : FS) (path : String) : Bool :=
  fs.contains path

/-- The non-empty proper prefixes of `path` that end right before a `\`, shortest first,
given the characters already passed (`pre`) and those still to come. -/
def parentsAux : List Char → List Char → List String
  | _, [] => []
  | pre, c :: cs =>
    if c = '\\' ∧ pre ≠ [] then String.mk pre :: parentsAux (pre ++ [c]) cs
    else parentsAux (pre ++ [c]) cs

/-- The chain of directories that `mkdir -p path` makes sure of: every parent of `path`
and `path` itself. -/
def chain (path : String) : List String :=
  parentsAux [] path.data ++ (if path = "" then [] else [path])

/-- Modelled from the spec: `createAll(path)` with parent-creating ("mkdir -p") semantics,
idempotent if already present; in the source `system("mkdir -p <folder>")`. -/
def mkdirP (fs : FS) (path : String) : FS :=
  fs ++ (chain path).filter (fun d => !fs.contains d)

/-! ## Machine state -/

/-- What the run does to the outside world, in order. -/
inductive Event where
  /-- A call `stat(path, &sb)`. -/
  | stat (path : String)
  /-- A call `system(cmd)`. -/
  | system (cmd : String)
  /-- A `printf`. -/
  | print (msg : String)
  deriving DecidableEq, Repr

/-- The state that `translate` and the statement handlers share. -/
structure State where
  /-- The lines of `code.lex` that `fptr3` has not read yet; the first of them is the rest
  of its line when a read has stopped inside it. -/
  toks : List String
  /-- The end-of-file flag of `fptr3`, as `feof` reads it. -/
  eof : Bool
  /-- The line buffer `holder2`. -/
  holder2 : String
  /-- The working directory buffer `cwd`. -/
  cwd : String
  /-- The directories that exist. -/
  fs : FS
  /-- The trace of events so far. -/
  out : List Event
  deriving DecidableEq, Repr

/-- How a call ends: it returns to its caller, or the process ends in `exit(code)`. -/
inductive Outcome where
  | ret (s : State)
  | exit (code : Nat) (s : State)
  deriving DecidableEq, Repr

/-- Sequencing: continue with `k` after a call that returned. -/
def andThen (r : Option Outcome) (k : State → Option Outcome) : Option Outcome :=
  match r with
  | some (.ret s) => k s
  | r => r

/-- Append an event to the trace. -/
def emit (s : State) (e : Event) : State :=
  { s with out := s.out ++ [e] }

/-- The constant `BUFF_SIZE`. -/
def BUFF_SIZE : Nat := 255

/-- The line, with its newline, fits one call `fgets(holder2, BUFF_SIZE, fptr3)`, which
reads at most `BUFF_SIZE - 1` characters. -/
def fitsRead (line : String) : Bool :=
  decide (line.length + 1 ≤ BUFF_SIZE - 1)

/-- The call `fgets(holder2, BUFF_SIZE, fptr3)` followed by the loop that turns the
newline into the terminator. A line that fits the read moves into the buffer; of a longer
line the first `BUFF_SIZE - 1` characters do, and the rest of the line stays in the file
for the next read. At the end of the file the buffer keeps its contents and the
end-of-file flag goes up. -/
def fgets (s : State) : State :=
  match s.toks with
  | [] => { s with eof := true }
  | t :: ts =>
    if fitsRead t then { s with toks := ts, holder2 := t }
    else { s with toks := String.mk (t.data.drop (BUFF_SIZE - 1)) :: ts,
                  holder2 := String.mk (t.data.take (BUFF_SIZE - 1)) }

/-- Whether the next `fgets` returns a non-null pointer. -/
def fgetsOk (s : State) : Bool :=
  !s.toks.isEmpty

/-! ## Path expressions -/

/-- The up-reference loop `for (i = PATH_MAX - 1; i >= 0; i--)` of the handlers: from the
end of the buffer every character is cleared until a `\` is met, which is cleared too.
The buffer is read as the string it holds: the bytes behind the terminator are taken to
hold no `\`, which the loop itself establishes the first time it runs and which `strcpy`
into the buffer keeps. -/
def popDir (cwd : String) : String :=
  String.mk ((cwd.data.reverse.dropWhile (fun c => c != '\\')).drop 1).reverse

/-- The inner `while (true)` of the path loop: append the buffered name to `folder`, read
on, and stop at `t_GreaterThanSign`. `folder` is the string that `strcpy` and `strcat`
build in the array `char folder[PATH_MAX]`; the model does not bound it, and a run in
which its length reaches `PATH_MAX` is a run in which the source writes past the array. -/
def segLoop : Nat → State → String → Option (State × String)
  | 0, _, _ => none
  | fuel + 1, s, folder =>
    let folder := if !streq s.holder2 "" then folder ++ "\\" else folder
    let folder := folder ++ s.holder2
    let s := fgets s
    let s := if strcaseeq s.holder2 "t_ForwardSlash" then { s with holder2 := "" } else s
    if strcaseeq s.holder2 "t_GreaterThanSign" then some (s, folder)
    else segLoop fuel s folder

/-- The loop `while (strcasecmp(holder2, "t_GreaterThanSign"))` that the four handlers
share word for word (lines 517-595, 653-731, 799-877, 964-1042): it consumes the path
expression, clears the tail of `cwd` at every `t_Astrix`, and builds `folder`. -/
def pathLoop : Nat → State → String → Option (State × String)
  | 0, _, _ => none
  | fuel + 1, s, folder =>
    if strcaseeq s.holder2 "t_GreaterThanSign" then some (s, folder)
    else if strcaseeq s.holder2 "t_Astrix" then
      let s := { s with cwd := popDir s.cwd }
      let folder := s.cwd
      let s := fgets s
      let s := if strcaseeq s.holder2 "t_ForwardSlash" then fgets s else s
      pathLoop fuel s folder
    else
      let slash := strcaseeq s.holder2 "t_ForwardSlash"
      let s := if slash then fgets s else s
      if slash && strcaseeq s.holder2 "t_GreaterThanSign" then some (s, folder)
      else
        match segLoop fuel s s.cwd with
        | none => none
        | some (s, folder) => pathLoop fuel s folder

/-! ## Statement handlers -/

/-- The function `go`. -/
def go (fuel : Nat) (s : State) : Option Outcome :=
  let cwd2 := s.cwd
  let s := fgets s
  if strcaseeq s.holder2 "t_LessThanSign" then
    let s := fgets s
    match pathLoop fuel s "" with
    | none => none
    | some (s, folder) =>
      let s := fgets s
      if !strcaseeq s.holder2 "t_EndOfLine" then
        some (.exit 0 (emit s (.print
          "Error. 'go' statement was not followed by a semicolon. Exiting...\n")))
      else
        let s := emit s (.stat folder)
        if isDir s.fs folder then
          let s := emit s (.print "Path exists. Go statement executed.\n")
          let s := { s with cwd := folder }
          some (.ret (emit s (.print
            ("Current directory is now changed to: " ++ s.cwd ++ "\n"))))
        else
          let s := emit s (.print
            ("Path: " ++ folder ++ " does not exist. Go statement cannot be executed\n"))
          some (.ret { s with cwd := cwd2 })
  else
    some (.exit 0 (emit s (.print
      "Error. 'go' statement should be followed by a path name: '<PATH_NAME>'.\n")))

/-- The function `make`. -/
def make (fuel : Nat) (s : State) : Option Outcome :=
  let s := fgets s
  if strcaseeq s.holder2 "t_LessThanSign" then
    let s := fgets s
    match pathLoop fuel s "" with
    | none => none
    | some (s, folder) =>
      let s := fgets s
      if !strcaseeq s.holder2 "t_EndOfLine" then
        some (.exit 0 (emit s (.print
          "Error. 'make' statement was not followed by a semicolon. Exiting...\n")))
      else
        let s := emit s (.stat folder)
        if isDir s.fs folder then
          some (.ret (emit s (.print
            "Path already exists. Make statement will not be executed.\n")))
        else
          let s := emit s (.system ("mkdir -p " ++ folder))
          let s := { s with fs := mkdirP s.fs folder }
          some (.ret (emit s (.print
            ("Success. Path: '" ++ folder ++ "' created with make command.\n"))))
  else
    some (.exit 0 (emit s (.print
      "Error. 'make' statement should be followed by a path name: '<PATH_NAME>'.\n")))

/-- The loop `while (fgets(holder2, BUFF_SIZE, fptr3) != NULL)` of a branch that is not
taken: lines are read up to the first `t_RightCurlyBrace`, or to the end of the file. -/
def skip : Nat → State → Option Outcome
  | 0, _ => none
  | fuel + 1, s =>
    if !fgetsOk s then some (.ret (fgets s))
    else
      let s := fgets s
      if s.eof then
        some (.exit 0 (emit s (.print
          "Error. End of file reached without a command completing.\n")))
      else if strcaseeq s.holder2 "t_RightCurlyBrace" then some (.ret s)
      else skip fuel s

mutual

/-- The function `ifPath_maker`. -/
def ifPath_maker : Nat → State → Option Outcome
  | 0, _ => none
  | fuel + 1, s =>
    let s := fgets s
    if strcaseeq s.holder2 "t_LessThanSign" then
      let s := fgets s
      match pathLoop fuel s "" with
      | none => none
      | some (s, folder) =>
        let s := emit s (.stat folder)
        if isDir s.fs folder then
          let s := emit s (.print "Path exists. If statement will be executed.\n")
          let s := fgets s
          if s.eof then
            some (.exit 0 (emit s (.print
              "Error. End of file reached without a command completing.\n")))
          else
            andThen
              (if strcaseeq s.holder2 "t_go" then go fuel s
               else if strcaseeq s.holder2 "t_make" then make fuel s
               else some (.ret s))
              (fun s =>
                if strcaseeq s.holder2 "t_LeftCurlyBrace" then
                  andThen (translate fuel s) (fun s =>
                    if strcaseeq s.holder2 "t_RightCurlyBrace" then some (.ret s)
                    else some (.ret (emit s (.print
                      "Error. Left curly brace not closed with a right curly brace.\n"))))
                else some (.ret s))
        else
          let s := emit s (.print ("Path: " ++ folder ++
            " does not exist. Command following if clause will not be executed.\n"))
          skip fuel s
    else
      some (.exit 0 (emit s (.print
        "Error. 'if' statement should be followed by a path name: '<PATH_NAME>'.\n")))

/-- The function `ifnot`. -/
def ifnot : Nat → State → Option Outcome
  | 0, _ => none
  | fuel + 1, s =>
    let s := fgets s
    if strcaseeq s.holder2 "t_LessThanSign" then
      let s := fgets s
      match pathLoop fuel s "" with
      | none => none
      | some (s, folder) =>
        let s := emit s (.stat folder)
        if isDir s.fs folder then
          let s := emit s (.print "Path exists. Ifnot command will not be executed.\n")
          skip fuel s
        else
          let s := emit s (.print ("Path: " ++ folder ++
            " does not exist. Command following ifnot clause will execute.\n"))
          let s := fgets s
          if s.eof then
            some (.exit 0 (emit s (.print
              "Error. End of file reached with a command completing.\n")))
          else
            andThen
              (if strcaseeq s.holder2 "t_go" then go fuel s
               else if strcaseeq s.holder2 "t_make" then make fuel s
               else some (.ret s))
              (fun s =>
                if strcaseeq s.holder2 "t_LeftCurlyBrace" then
                  andThen (translate fuel s) (fun s =>
                    if strcaseeq s.holder2 "t_RightCurlyBrace" then some (.ret s)
                    else some (.ret (emit s (.print
                      "Error. Left curly brace not closed with a right curly brace.\n"))))
                else some (.ret s))
    else
      some (.exit 0 (emit s (.print
        "Error. 'if' statement should be followed by a path name: '<PATH_NAME>'.\n")))

/-- The function `translate`: the loop `while (fgets(holder2, BUFF_SIZE, fptr3) != NULL)`
with its four tests, one after the other, on the buffer as the previous handler left it. -/
def translate : Nat → State → Option Outcome
  | 0, _ => none
  | fuel + 1, s =>
    if !fgetsOk s then some (.ret (fgets s))
    else
      let s := fgets s
      if s.eof then some (.ret s)
      else
        andThen (if strcaseeq s.holder2 "t_go" then go fuel s else some (.ret s))
        (fun s =>
        andThen (if strcaseeq s.holder2 "t_make" then make fuel s else some (.ret s))
        (fun s =>
        andThen (if strcaseeq s.holder2 "t_if" then ifPath_maker fuel s else some (.ret s))
        (fun s =>
        andThen (if strcaseeq s.holder2 "t_ifnot" then ifnot fuel s else some (.ret s))
        (fun s => translate fuel s))))

end

/-! ## Directory names and path expressions -/

/-- The function `checkIfAlphaString`: a letter, then letters, digits and underscores. -/
def checkIfAlphaString (str : String) : Bool :=
  match str.data with
  | [] => false
  | c :: cs => c.isAlpha && cs.all (fun d => d.isAlphanum || d == '_')

/-- The eleven lines of `code.lex` that stand for a keyword or a symbol. -/
def reserved : List String :=
  ["t_ForwardSlash", "t_Astrix", "t_LeftCurlyBrace", "t_EndOfLine", "t_if", "t_ifnot",
   "t_make", "t_go", "t_RightCurlyBrace", "t_LessThanSign", "t_GreaterThanSign"]

/-- The test at `LOOP:` of `check_path` (lines 381-392): the line is a directory name, that
is an identifier that is none of the reserved lines, whatever the case. -/
def isDirectoryName (line : String) : Bool :=
  checkIfAlphaString line && reserved.all (fun r => !strcaseeq line r)

/-- The lines between `t_LessThanSign` and `t_GreaterThanSign` of the path expression with
`upCount` up-references and the given segments: the components with a `t_ForwardSlash`
between any two of them. -/
def pathBody (upCount : Nat) (segments : List String) : List String :=
  List.intersperse "t_ForwardSlash" (List.replicate upCount "t_Astrix" ++ segments)

/-- The lines of a whole path expression `< ... >`. -/
def pathToks (upCount : Nat) (segments : List String) : List String :=
  "t_LessThanSign" :: pathBody upCount segments ++ ["t_GreaterThanSign"]

/-- What the path loop leaves in `folder` for well-formed input, in closed form: the
segments appended to the start value, each after a `\`. -/
def appendSegs (folder : String) (segments : List String) : String :=
  segments.foldl (fun f a => f ++ "\\" ++ a) folder

/-! ## Resolution as the specification words it -/

/-- The state in which `main` calls `translate`: the file rewound, the buffer as the
validation pass left it. -/
def start (toks : List String) (holder2 cwd : String) (fs : FS) : State :=
  { toks := toks, eof := false, holder2 := holder2, cwd := cwd, fs := fs, out := [] }

/-! ## Auxiliary definitions for the statements and proofs -/

/-- The separators and names that follow the first component of a path body. -/
def sepToks : List String → List String
  | [] => []
  | b :: r => "t_ForwardSlash" :: b :: sepToks r

/-- The basic command behind a keyword line: `go` or `make`. -/
def runBasic (isGo : Bool) (fuel : Nat) (s : State) : Option Outcome :=
  if isGo then go fuel s else make fuel s

/-- The keyword line of a basic command. -/
def basicKw (isGo : Bool) : String :=
  if isGo then "t_go" else "t_make"

/-! ## The lexer of `main` -/

/-- The function `isspace` of the C library in the C locale. -/
def isspace (c : Char) : Bool :=
  c == ' ' || c == '\t' || c == '\n' || c.val == 11 || c.val == 12 || c == '\r'

/-- The function `isbracket`: the line of `code.lex` for a bracket, or `NULL`. A line of
the file model is written without the newline that ends it in the file. -/
def isbracket (c : Char) : Option String :=
  if c.val == 123 then some "t_LeftCurlyBrace"
  else if c.val == 125 then some "t_RightCurlyBrace"
  else if c.val == 60 then some "t_LessThanSign"
  else if c.val == 62 then some "t_GreaterThanSign"
  else none

/-- The function `checkIfKeyWord`: comparison with `strcmp`, the case counts. -/
def checkIfKeyWord (str : String) : Option String :=
  if streq str "go" then some "t_go"
  else if streq str "make" then some "t_make"
  else if streq str "if" then some "t_if"
  else if streq str "ifnot" then some "t_ifnot"
  else none

/-- The function `findTokenType`: the keyword line, or `t_DirectoryName`, or `NULL`. -/
def findTokenType (str : String) : Option String :=
  if (checkIfKeyWord str).isSome then checkIfKeyWord str
  else if checkIfAlphaString str then some "t_DirectoryName"
  else none

/-- How the lexer loop of `main` ends. -/
inductive LexResult where
  /-- The end of the source is reached; the lines written to `code.lex`. -/
  | ok (lines : List String)
  /-- The message `Error. Unrecognized character: ...` and `return 1` (lines 155-159). -/
  | unrecognized (holder : String)
  /-- The message `Error. Identifier length cannot be greater than ...` and `return 1`
  (lines 196-200). -/
  | tooLong
  /-- The call `strcasecmp(tokenType, ...)` of line 140 with `tokenType == NULL`:
  undefined behaviour. -/
  | nullStrcasecmp (holder : String)
  /-- A write `holder[index] = c` outside the `PATH_MAX + 1` characters of `holder`. -/
  | overflow
  deriving DecidableEq, Repr

/-- The body of `if (*holder)` (lines 137-160) with the reset that follows it (lines
163-167): the lexeme in `holder` is classified and its line is written. -/
def flush (holder : List Char) (out : List String) : Except LexResult (List Char × List String) :=
  if holder ≠ [] then
    match findTokenType (String.mk holder) with
    | none => .error (.nullStrcasecmp (String.mk holder))
    | some tokenType =>
      if strcaseeq tokenType "t_DirectoryName" then
        .ok ([], out ++ [String.mk (holder.map Char.toLower)])
      else if strcaseeq tokenType "t_go" || strcaseeq tokenType "t_make"
          || strcaseeq tokenType "t_if" || strcaseeq tokenType "t_ifnot" then
        .ok ([], out ++ [tokenType])
      else if (findTokenType (String.mk holder)).isNone then
        .error (.unrecognized (String.mk holder))
      else .ok ([], out)
  else .ok ([], out)

/-- The loop `for (char c = fgetc(fptr1); c != EOF; c = fgetc(fptr1))` of `main`, on the
characters still to read, with the contents of `holder` (`index` is its length) and the
lines written so far. -/
def lexLoop (PATH_MAX : Nat) : List Char → List Char → List String → LexResult
  | [], _, out => .ok out
  | c :: cs, holder, out =>
    match (if c == ';' || c == '*' || c == '/' || (isbracket c).isSome || isspace c
        then flush holder out else .ok (holder, out)) with
    | .error r => r
    | .ok (holder, out) =>
      if c == ';' then lexLoop PATH_MAX cs holder (out ++ ["t_EndOfLine"])
      else if c == '/' then lexLoop PATH_MAX cs holder (out ++ ["t_ForwardSlash"])
      else if c == '*' then lexLoop PATH_MAX cs holder (out ++ ["t_Astrix"])
      else
        match isbracket c with
        | some b => lexLoop PATH_MAX cs holder (out ++ [b])
        | none =>
          if (holder.length : Int) > (PATH_MAX : Int) - 1 then .tooLong
          else if !isspace c then
            if holder.length < PATH_MAX + 1 then lexLoop PATH_MAX cs (holder ++ [c]) out
            else .overflow
          else lexLoop PATH_MAX cs holder out

/-- The lexer of `main` on a source text. -/
def lexer (PATH_MAX : Nat) (src : String) : LexResult :=
  lexLoop PATH_MAX src.data [] []

/-! ## The validation pass -/

mutual

/-- The function `check_path`. The result is the returned flag with the state of the
stream and of the buffer. -/
def check_path : Nat → State → Option (Bool × State)
  | 0, _ => none
  | fuel + 1, s =>
    let s := fgets s
    if s.eof then some (false, s)
    else checkLoop fuel s

/-- The code of `check_path` from the label `LOOP:` on. -/
def checkLoop : Nat → State → Option (Bool × State)
  | 0, _ => none
  | fuel + 1, s =>
    if isDirectoryName s.holder2 then
      let s := fgets s
      if s.eof then some (false, s)
      else if strcaseeq s.holder2 "t_ForwardSlash" then
        let s := fgets s
        if strcaseeq s.holder2 "t_Astrix" then some (false, s)
        else checkLoop fuel s
      else some (true, s)
    else if strcaseeq s.holder2 "t_Astrix" then
      let s := fgets s
      if s.eof then some (false, s)
      else if strcaseeq s.holder2 "t_ForwardSlash" then
        match check_path fuel s with
        | none => none
        | some (_, s) => some (true, s)
      else some (true, s)
    else some (false, s)

end

/-- The loop `while (fgets(holder2, BUFF_SIZE, fptr3) != NULL)` of `main` that checks the
path expressions (lines 243-273): `exit 1` stands for `return 1`. -/
def validate : Nat → State → Option Outcome
  | 0, _ => none
  | fuel + 1, s =>
    if !fgetsOk s then some (.ret (fgets s))
    else
      let s := fgets s
      if s.eof then some (.ret s)
      else if strcaseeq s.holder2 "t_LessThanSign" then
        match check_path fuel s with
        | none => none
        | some (true, s) =>
          if strcaseeq s.holder2 "t_GreaterThanSign" then validate fuel s
          else some (.exit 1 (emit s (.print
            "Error. Missing greater than sign after path name: <INVALID_PATH_NAME\n")))
        | some (false, s) =>
          validate fuel (emit s (.print
            "Error. Less than sign was not followed by a valid path name: <INVALID_PATH_NAME\n"))
      else validate fuel s

/-! ## The program -/

/-- How a run of the program ends. -/
inductive Run where
  /-- The process ends with an exit status, having left a file system and a trace. -/
  | finished (status : Nat) (fs : FS) (out : List Event)
  /-- The run meets undefined behaviour in the lexer. -/
  | undefined
  deriving DecidableEq, Repr

/-- The function `main` from the point where the source file is open (line 107): the
source text is lexed into `code.lex`, the file is read once by the validation pass and,
after `rewind`, once more by `translate`. `cwd` is what `getcwd` answers. -/
def main (PATH_MAX : Nat) (src cwd : String) (fs : FS) (fuel : Nat) : Option Run :=
  match lexer PATH_MAX src with
  | .ok lines =>
    match validate fuel ⟨lines, false, "", cwd, fs,
        [.print ("Current directory: " ++ cwd ++ "\n")]⟩ with
    | none => none
    | some (.exit code s) => some (.finished code s.fs s.out)
    | some (.ret s) =>
      match translate fuel { s with toks := lines, eof := false } with
      | none => none
      | some (.exit code s) => some (.finished code s.fs s.out)
      | some (.ret s) => some (.finished 0 s.fs s.out)
  | .unrecognized holder =>
    some (.finished 1 fs [.print ("Error. Unrecognized character: \"" ++ holder
      ++ "\" in source file.\nExiting...\n")])
  | .tooLong =>
    some (.finished 1 fs [.print ("Error. Identifier length cannot be greater than "
      ++ toString PATH_MAX ++ " characters long.\nExiting...\n")])
  | .nullStrcasecmp _ => some .undefined
  | .overflow => some .undefined

/-! ## Auxiliary definitions for the lexer -/

/-- The test of line 133 of `main`: the character ends a lexeme. -/
def isSeparator (c : Char) : Bool :=
  c == ';' || c == '*' || c == '/' || (isbracket c).isSome || isspace c

/-- The lines that lines 170-194 of `main` write for a separator. -/
def sepLines (c : Char) : List String :=
  if c == ';' then ["t_EndOfLine"]
  else if c == '/' then ["t_ForwardSlash"]
  else if c == '*' then ["t_Astrix"]
  else
    match isbracket c with
    | some b => [b]
    | none => []

/-- The line that the lexer writes for an identifier: the keyword line, or the identifier
in lower case. -/
def lexemeLine (run : List Char) : String :=
  match checkIfKeyWord (String.mk run) with
  | some k => k
  | none => String.mk (run.map Char.toLower)

/-- A character of an identifier: a letter, a digit or an underscore. -/
def identChar (c : Char) : Bool :=
  c.isAlphanum || c == '_'

/-! ## Auxiliary definitions for the lines of symbols and keywords -/

/-- The capital letters. -/
def capitals : List Char := "ABCDEFGHIJKLMNOPQRSTUVWXYZ".data

/-- The seven lines of `code.lex` that stand for a symbol. -/
def symbolLines : List String :=
  ["t_EndOfLine", "t_ForwardSlash", "t_Astrix", "t_LeftCurlyBrace", "t_RightCurlyBrace",
   "t_LessThanSign", "t_GreaterThanSign"]

/-- The line is the line of a symbol, letter for letter. -/
def isSymbolLine (line : String) : Bool :=
  symbolLines.contains line

theorem strcaseeq_trans_left {a b : String} (h : strcaseeq a b = true) (c : String) :
    strcaseeq a c = strcaseeq b c := by
  unfold strcaseeq at *
  have h1 : a.data.map Char.toLower = b.data.map Char.toLower := by simpa using h
  rw [h1]

theorem checkIfAlphaString_ne_empty {a : String} (h : checkIfAlphaString a = true) :
    a ≠ "" := by
  intro h0
  subst h0
  simp [checkIfAlphaString] at h

theorem dirname_props {a : String} (h : isDirectoryName a = true) :
    streq a "" = false ∧ strcaseeq a "t_ForwardSlash" = false ∧
    strcaseeq a "t_Astrix" = false ∧ strcaseeq a "t_GreaterThanSign" = false ∧
    strcaseeq a "t_RightCurlyBrace" = false := by
  simp only [isDirectoryName, reserved, Bool.and_eq_true, List.all_cons, List.all_nil,
    Bool.not_eq_true', Bool.and_true] at h
  obtain ⟨h0, h1, h2, h3, h4, h5, h6, h7, h8, h9, h10, h11⟩ := h
  refine ⟨?_, h1, h2, h11, h9⟩
  have := checkIfAlphaString_ne_empty h0
  simp [streq, this]

theorem intersperse_cons_sepToks (a : String) (l : List String) :
    List.intersperse "t_ForwardSlash" (a :: l) = a :: sepToks l := by
  induction l generalizing a with
  | nil => rfl
  | cons b r ih => simp [List.intersperse, sepToks, ih]

theorem lit_slash_slash : strcaseeq "t_ForwardSlash" "t_ForwardSlash" = true := by decide
theorem lit_gt_gt : strcaseeq "t_GreaterThanSign" "t_GreaterThanSign" = true := by decide
theorem lit_gt_slash : strcaseeq "t_GreaterThanSign" "t_ForwardSlash" = false := by decide
theorem lit_empty_gt : strcaseeq "" "t_GreaterThanSign" = false := by decide
theorem lit_star_gt : strcaseeq "t_Astrix" "t_GreaterThanSign" = false := by decide
theorem lit_star_star : strcaseeq "t_Astrix" "t_Astrix" = true := by decide
theorem lit_empty_empty : streq "" "" = true := by decide

theorem fit_lt : fitsRead "t_LessThanSign" = true := by decide
theorem fit_gt : fitsRead "t_GreaterThanSign" = true := by decide
theorem fit_slash : fitsRead "t_ForwardSlash" = true := by decide
theorem fit_star : fitsRead "t_Astrix" = true := by decide
theorem fit_eol : fitsRead "t_EndOfLine" = true := by decide
theorem fit_go : fitsRead "t_go" = true := by decide
theorem fit_make : fitsRead "t_make" = true := by decide
theorem fit_if : fitsRead "t_if" = true := by decide
theorem fit_ifnot : fitsRead "t_ifnot" = true := by decide
theorem fit_lbrace : fitsRead "t_LeftCurlyBrace" = true := by decide
theorem fit_rbrace : fitsRead "t_RightCurlyBrace" = true := by decide

/-- One read of a line that fits it. -/
theorem fgets_cons {t : String} (ht : fitsRead t = true) (ts : List String) (eof : Bool)
    (h cwd : String) (fs : FS) (out : List Event) :
    fgets ⟨t :: ts, eof, h, cwd, fs, out⟩ = ⟨ts, eof, t, cwd, fs, out⟩ := by
  simp [fgets, ht]

/-- The inner loop on a name followed by well-formed input: every segment is appended
after a separator and the loop ends on the closing sign. -/
theorem segLoop_run (segs : List String) :
    ∀ (a : String) (fuel : Nat) (rest : List String) (eof : Bool) (cwd : String) (fs : FS)
      (out : List Event) (folder : String),
      isDirectoryName a = true → (∀ b ∈ segs, isDirectoryName b = true) →
      (∀ b ∈ segs, fitsRead b = true) →
      2 * segs.length + 1 ≤ fuel →
      segLoop fuel ⟨sepToks segs ++ "t_GreaterThanSign" :: rest, eof, a, cwd, fs, out⟩ folder
        = some (⟨rest, eof, "t_GreaterThanSign", cwd, fs, out⟩, appendSegs folder (a :: segs)) := by
  induction segs with
  | nil =>
    intro a fuel rest eof cwd fs out folder ha _ _ hf
    obtain ⟨n, rfl⟩ : ∃ n, fuel = n + 1 := ⟨fuel - 1, by simp at hf; omega⟩
    obtain ⟨h1, _, _, _, _⟩ := dirname_props ha
    simp [segLoop, sepToks, fgets, fit_gt, h1, lit_gt_gt, lit_gt_slash, appendSegs]
  | cons b r ih =>
    intro a fuel rest eof cwd fs out folder ha hall hfit hf
    obtain ⟨n, rfl⟩ : ∃ n, fuel = n + 2 := ⟨fuel - 2, by simp at hf; omega⟩
    obtain ⟨h1, _, _, _, _⟩ := dirname_props ha
    have hb := hall b (by simp)
    have hbf := hfit b (by simp)
    obtain ⟨_, hb2, _, hb4, _⟩ := dirname_props hb
    have hr : ∀ c ∈ r, isDirectoryName c = true := fun c hc => hall c (by simp [hc])
    have hrf : ∀ c ∈ r, fitsRead c = true := fun c hc => hfit c (by simp [hc])
    have := ih b n rest eof cwd fs out ((folder ++ "\\") ++ a) hb hr hrf (by simp at hf; omega)
    simp [segLoop, sepToks, fgets, fit_slash, hbf, h1, lit_slash_slash, lit_empty_gt,
      lit_empty_empty, hb2, hb4]
    rw [this]; rfl

/-- The path loop on a well-formed segment list: `folder` is `cwd` with the segments
appended, `cwd` itself is untouched. -/
theorem pathLoop_segs (a : String) (segs : List String) (fuel : Nat) (rest : List String)
    (eof : Bool) (cwd : String) (fs : FS) (out : List Event) (folder : String)
    (ha : isDirectoryName a = true) (hall : ∀ b ∈ segs, isDirectoryName b = true)
    (hfit : ∀ b ∈ segs, fitsRead b = true) (hf : 2 * segs.length + 2 ≤ fuel) :
    pathLoop (fuel + 1)
        ⟨sepToks segs ++ "t_GreaterThanSign" :: rest, eof, a, cwd, fs, out⟩ folder
      = some (⟨rest, eof, "t_GreaterThanSign", cwd, fs, out⟩, appendSegs cwd (a :: segs)) := by
  obtain ⟨n, rfl⟩ : ∃ n, fuel = n + 1 := ⟨fuel - 1, by omega⟩
  obtain ⟨_, h2, h3, h4, _⟩ := dirname_props ha
  have h := segLoop_run segs a (n + 1) rest eof cwd fs out cwd ha hall hfit (by omega)
  simp [pathLoop, h2, h3, h4, h, lit_gt_gt]

theorem pathLoop_gt (fuel : Nat) (toks : List String) (eof : Bool) (cwd : String) (fs : FS)
    (out : List Event) (folder : String) :
    pathLoop (fuel + 1) ⟨toks, eof, "t_GreaterThanSign", cwd, fs, out⟩ folder
      = some (⟨toks, eof, "t_GreaterThanSign", cwd, fs, out⟩, folder) := by
  simp [pathLoop, lit_gt_gt]

theorem pathLoop_star_slash (fuel : Nat) (x : String) (toks : List String) (eof : Bool)
    (cwd : String) (fs : FS) (out : List Event) (folder : String)
    (hx : fitsRead x = true) :
    pathLoop (fuel + 1) ⟨"t_ForwardSlash" :: x :: toks, eof, "t_Astrix", cwd, fs, out⟩ folder
      = pathLoop fuel ⟨toks, eof, x, popDir cwd, fs, out⟩ (popDir cwd) := by
  simp [pathLoop, fgets, fit_slash, hx, lit_star_gt, lit_star_star, lit_slash_slash]

theorem pathLoop_star_gt (fuel : Nat) (toks : List String) (eof : Bool)
    (cwd : String) (fs : FS) (out : List Event) (folder : String) :
    pathLoop (fuel + 1) ⟨"t_GreaterThanSign" :: toks, eof, "t_Astrix", cwd, fs, out⟩ folder
      = pathLoop fuel ⟨toks, eof, "t_GreaterThanSign", popDir cwd, fs, out⟩ (popDir cwd) := by
  simp [pathLoop, fgets, fit_gt, lit_star_gt, lit_star_star, lit_gt_slash]

/-- The path loop on well-formed input that starts with an up-reference. -/
theorem pathLoop_stars (k : Nat) (segs : List String)
    (hall : ∀ b ∈ segs, isDirectoryName b = true) (hfit : ∀ b ∈ segs, fitsRead b = true) :
    ∀ (fuel : Nat) (rest : List String) (eof : Bool) (cwd : String) (fs : FS)
      (out : List Event) (folder : String),
      k + 2 * segs.length + 3 ≤ fuel →
      pathLoop (fuel + 1)
          ⟨sepToks (List.replicate k "t_Astrix" ++ segs) ++ "t_GreaterThanSign" :: rest,
            eof, "t_Astrix", cwd, fs, out⟩ folder
        = some (⟨rest, eof, "t_GreaterThanSign", popDir^[k + 1] cwd, fs, out⟩,
            appendSegs (popDir^[k + 1] cwd) segs) := by
  induction k with
  | zero =>
    intro fuel rest eof cwd fs out folder hf
    obtain ⟨n, rfl⟩ : ∃ n, fuel = n + 1 := ⟨fuel - 1, by omega⟩
    cases segs with
    | nil =>
      simp only [List.replicate_zero, List.append_nil, sepToks, List.nil_append]
      rw [pathLoop_star_gt, pathLoop_gt]
      rfl
    | cons a r =>
      have ha := hall a (by simp)
      have hr : ∀ c ∈ r, isDirectoryName c = true := fun c hc => hall c (by simp [hc])
      have hrf : ∀ c ∈ r, fitsRead c = true := fun c hc => hfit c (by simp [hc])
      have h := pathLoop_segs a r n rest eof (popDir cwd) fs out (popDir cwd) ha hr hrf
        (by simp at hf; omega)
      simp only [List.replicate_zero, List.nil_append, sepToks, List.cons_append]
      rw [pathLoop_star_slash _ _ _ _ _ _ _ _ (hfit a (by simp)), h]
      rfl
  | succ k ih =>
    intro fuel rest eof cwd fs out folder hf
    obtain ⟨n, rfl⟩ : ∃ n, fuel = n + 1 := ⟨fuel - 1, by omega⟩
    have h := ih n rest eof (popDir cwd) fs out (popDir cwd) (by omega)
    simp only [List.replicate_succ, List.cons_append, sepToks]
    rw [pathLoop_star_slash _ _ _ _ _ _ _ _ fit_star]
    exact h

/-- The path loop on the body of any well-formed path expression: it stops on the closing
sign with the tail of `cwd` cleared once for every up-reference and with `folder` equal
to what is left of `cwd` followed by the segments. -/
theorem pathLoop_wf (k : Nat) (segs : List String)
    (hall : ∀ b ∈ segs, isDirectoryName b = true) (hfit : ∀ b ∈ segs, fitsRead b = true)
    (hne : k + segs.length ≠ 0)
    (fuel : Nat) (hf : k + 2 * segs.length + 3 ≤ fuel)
    (h : String) (toks rest : List String) (eof : Bool) (cwd : String) (fs : FS)
    (out : List Event) (folder : String)
    (htoks : h :: toks = pathBody k segs ++ "t_GreaterThanSign" :: rest) :
    pathLoop fuel ⟨toks, eof, h, cwd, fs, out⟩ folder
      = some (⟨rest, eof, "t_GreaterThanSign", popDir^[k] cwd, fs, out⟩,
          appendSegs (popDir^[k] cwd) segs) := by
  obtain ⟨n, rfl⟩ : ∃ n, fuel = n + 1 := ⟨fuel - 1, by omega⟩
  cases k with
  | zero =>
    cases segs with
    | nil => simp at hne
    | cons a r =>
      simp only [pathBody, List.replicate_zero, List.nil_append, intersperse_cons_sepToks,
        List.cons_append, List.cons.injEq] at htoks
      obtain ⟨rfl, rfl⟩ := htoks
      have ha := hall h (by simp)
      have hr : ∀ c ∈ r, isDirectoryName c = true := fun c hc => hall c (by simp [hc])
      have hrf : ∀ c ∈ r, fitsRead c = true := fun c hc => hfit c (by simp [hc])
      rw [pathLoop_segs h r n rest eof cwd fs out folder ha hr hrf (by simp at hf; omega)]
      rfl
  | succ k =>
    simp only [pathBody, List.replicate_succ, List.cons_append, intersperse_cons_sepToks,
      List.cons.injEq] at htoks
    obtain ⟨rfl, rfl⟩ := htoks
    rw [pathLoop_stars k segs hall hfit n rest eof cwd fs out folder (by omega)]

/-! ## The path loop computes what the specification describes -/

theorem lit_lt_lt : strcaseeq "t_LessThanSign" "t_LessThanSign" = true := by decide
theorem lit_eol_eol : strcaseeq "t_EndOfLine" "t_EndOfLine" = true := by decide

theorem pathBody_cons (k : Nat) (segs : List String)
    (hfit : ∀ b ∈ segs, fitsRead b = true) (hne : k + segs.length ≠ 0) :
    ∃ h t, pathBody k segs = h :: t ∧ fitsRead h = true := by
  cases hl : List.replicate k "t_Astrix" ++ segs with
  | nil =>
    have := congrArg List.length hl
    simp only [List.length_append, List.length_replicate, List.length_nil] at this
    omega
  | cons a l =>
    refine ⟨a, sepToks l, by rw [pathBody, hl, intersperse_cons_sepToks], ?_⟩
    have ha : a ∈ List.replicate k "t_Astrix" ++ segs := by rw [hl]; simp
    rcases List.mem_append.1 ha with h1 | h1
    · rw [(List.mem_replicate.1 h1).2]; exact fit_star
    · exact hfit a h1

/-- The function `go` on `<p> ;` with `p` well formed. -/
theorem go_wf (k : Nat) (segs : List String)
    (hall : ∀ b ∈ segs, isDirectoryName b = true)
    (hfit : ∀ b ∈ segs, fitsRead b = true) (hne : k + segs.length ≠ 0)
    (fuel : Nat) (hf : k + 2 * segs.length + 3 ≤ fuel)
    (rest : List String) (eof : Bool) (h0 cwd : String) (fs : FS) (out : List Event) :
    go fuel ⟨pathToks k segs ++ "t_EndOfLine" :: rest, eof, h0, cwd, fs, out⟩
      = if isDir fs (appendSegs (popDir^[k] cwd) segs) then
          some (.ret ⟨rest, eof, "t_EndOfLine", appendSegs (popDir^[k] cwd) segs, fs,
            out ++ [.stat (appendSegs (popDir^[k] cwd) segs),
              .print "Path exists. Go statement executed.\n",
              .print ("Current directory is now changed to: "
                ++ appendSegs (popDir^[k] cwd) segs ++ "\n")]⟩)
        else
          some (.ret ⟨rest, eof, "t_EndOfLine", cwd, fs,
            out ++ [.stat (appendSegs (popDir^[k] cwd) segs),
              .print ("Path: " ++ appendSegs (popDir^[k] cwd) segs
                ++ " does not exist. Go statement cannot be executed\n")]⟩) := by
  obtain ⟨h, t, hb, hh⟩ := pathBody_cons k segs hfit hne
  have hp := pathLoop_wf k segs hall hfit hne fuel hf h
    (t ++ "t_GreaterThanSign" :: "t_EndOfLine" :: rest) ("t_EndOfLine" :: rest) eof cwd fs out ""
    (by rw [hb]; simp)
  simp only [go, fgets, fit_lt, fit_gt, fit_slash, fit_star, fit_eol, fit_go, fit_make, fit_if,
    fit_ifnot, fit_lbrace, fit_rbrace, hh, pathToks, hb, List.cons_append, List.append_assoc,
    List.nil_append, List.singleton_append, lit_lt_lt, if_true, hp, lit_eol_eol, Bool.not_true,
    Bool.false_eq_true, ↓reduceIte, emit]

/-- The function `make` on `<p> ;` with `p` well formed. -/
theorem make_wf (k : Nat) (segs : List String)
    (hall : ∀ b ∈ segs, isDirectoryName b = true)
    (hfit : ∀ b ∈ segs, fitsRead b = true) (hne : k + segs.length ≠ 0)
    (fuel : Nat) (hf : k + 2 * segs.length + 3 ≤ fuel)
    (rest : List String) (eof : Bool) (h0 cwd : String) (fs : FS) (out : List Event) :
    make fuel ⟨pathToks k segs ++ "t_EndOfLine" :: rest, eof, h0, cwd, fs, out⟩
      = if isDir fs (appendSegs (popDir^[k] cwd) segs) then
          some (.ret ⟨rest, eof, "t_EndOfLine", popDir^[k] cwd, fs,
            out ++ [.stat (appendSegs (popDir^[k] cwd) segs),
              .print "Path already exists. Make statement will not be executed.\n"]⟩)
        else
          some (.ret ⟨rest, eof, "t_EndOfLine", popDir^[k] cwd,
            mkdirP fs (appendSegs (popDir^[k] cwd) segs),
            out ++ [.stat (appendSegs (popDir^[k] cwd) segs),
              .system ("mkdir -p " ++ appendSegs (popDir^[k] cwd) segs),
              .print ("Success. Path: '" ++ appendSegs (popDir^[k] cwd) segs
                ++ "' created with make command.\n")]⟩) := by
  obtain ⟨h, t, hb, hh⟩ := pathBody_cons k segs hfit hne
  have hp := pathLoop_wf k segs hall hfit hne fuel hf h
    (t ++ "t_GreaterThanSign" :: "t_EndOfLine" :: rest) ("t_EndOfLine" :: rest) eof cwd fs out ""
    (by rw [hb]; simp)
  simp only [make, fgets, fit_lt, fit_gt, fit_slash, fit_star, fit_eol, fit_go, fit_make, fit_if,
    fit_ifnot, fit_lbrace, fit_rbrace, hh, pathToks, hb, List.cons_append, List.append_assoc,
    List.nil_append, List.singleton_append, lit_lt_lt, if_true, hp, lit_eol_eol, Bool.not_true,
    Bool.false_eq_true, ↓reduceIte, emit]

theorem lit_eol_lbrace : strcaseeq "t_EndOfLine" "t_LeftCurlyBrace" = false := by decide
theorem lit_eol_make : strcaseeq "t_EndOfLine" "t_make" = false := by decide
theorem lit_eol_if : strcaseeq "t_EndOfLine" "t_if" = false := by decide
theorem lit_eol_ifnot : strcaseeq "t_EndOfLine" "t_ifnot" = false := by decide
theorem lit_go_go : strcaseeq "t_go" "t_go" = true := by decide
theorem lit_make_go : strcaseeq "t_make" "t_go" = false := by decide
theorem lit_make_make : strcaseeq "t_make" "t_make" = true := by decide
theorem lit_if_go : strcaseeq "t_if" "t_go" = false := by decide
theorem lit_if_make : strcaseeq "t_if" "t_make" = false := by decide
theorem lit_if_if : strcaseeq "t_if" "t_if" = true := by decide

/-- A call of `go` that returns leaves the line of a semicolon in the buffer. -/
theorem go_ret_holder {fuel : Nat} {s s' : State} (h : go fuel s = some (.ret s')) :
    strcaseeq s'.holder2 "t_EndOfLine" = true := by
  unfold go at h
  simp only at h
  split at h
  · split at h
    · simp at h
    · next s1 folder _ =>
      split at h
      · simp at h
      · next hs =>
        simp only [Bool.not_eq_true, Bool.not_eq_false'] at hs
        split at h
        · simp only [Option.some.injEq, Outcome.ret.injEq] at h
          subst h
          simpa [emit] using hs
        · simp only [Option.some.injEq, Outcome.ret.injEq] at h
          subst h
          simpa [emit] using hs
  · simp at h

/-- A call of `make` that returns leaves the line of a semicolon in the buffer. -/
theorem make_ret_holder {fuel : Nat} {s s' : State} (h : make fuel s = some (.ret s')) :
    strcaseeq s'.holder2 "t_EndOfLine" = true := by
  unfold make at h
  simp only at h
  split at h
  · split at h
    · simp at h
    · next s1 folder _ =>
      split at h
      · simp at h
      · next hs =>
        simp only [Bool.not_eq_true, Bool.not_eq_false'] at hs
        split at h
        · simp only [Option.some.injEq, Outcome.ret.injEq] at h
          subst h
          simpa [emit] using hs
        · simp only [Option.some.injEq, Outcome.ret.injEq] at h
          subst h
          simpa [emit] using hs
  · simp at h

/-- After a handler that left a semicolon in the buffer, a test of the buffer against
another reserved line fails, so the handler behind the test is not called. -/
theorem andThen_of_holder (r : Option Outcome) (lit : String)
    (hlit : strcaseeq "t_EndOfLine" lit = false)
    (hr : ∀ s', r = some (.ret s') → strcaseeq s'.holder2 "t_EndOfLine" = true)
    (f k : State → Option Outcome) :
    andThen r (fun s => andThen (if strcaseeq s.holder2 lit then f s else some (.ret s)) k)
      = andThen r k := by
  match r, hr with
  | none, _ => rfl
  | some (.exit c s), _ => rfl
  | some (.ret s), hr =>
    have := hr s rfl
    simp [andThen, strcaseeq_trans_left this lit, hlit]

theorem andThen_some_ret (s : State) (k : State → Option Outcome) :
    andThen (some (.ret s)) k = k s := rfl

/-! ## Steps of `translate` -/

theorem translate_nil (fuel : Nat) (eof : Bool) (h cwd : String) (fs : FS)
    (out : List Event) :
    translate (fuel + 1) ⟨[], eof, h, cwd, fs, out⟩
      = some (.ret ⟨[], true, h, cwd, fs, out⟩) := by
  simp [translate, fgetsOk, fgets, fit_lt, fit_gt, fit_slash, fit_star, fit_eol, fit_go, fit_make,
    fit_if, fit_ifnot, fit_lbrace, fit_rbrace]

/-- A statement `go ...` at the head of the stream: `translate` calls `go` and goes on
with the state that `go` returns. -/
theorem translate_go (fuel : Nat) (toks : List String) (h cwd : String) (fs : FS)
    (out : List Event) :
    translate (fuel + 1) ⟨"t_go" :: toks, false, h, cwd, fs, out⟩
      = andThen (go fuel ⟨toks, false, "t_go", cwd, fs, out⟩) (translate fuel) := by
  have hr : ∀ s', go fuel ⟨toks, false, "t_go", cwd, fs, out⟩ = some (.ret s') →
      strcaseeq s'.holder2 "t_EndOfLine" = true := fun s' hs => go_ret_holder hs
  rw [translate]
  simp only [fgetsOk, fgets, fit_lt, fit_gt, fit_slash, fit_star, fit_eol, fit_go, fit_make,
    fit_if, fit_ifnot, fit_lbrace, fit_rbrace, List.isEmpty_cons, Bool.not_false, Bool.not_true,
    Bool.false_eq_true, ↓reduceIte, lit_go_go]
  rw [andThen_of_holder _ "t_make" lit_eol_make hr, andThen_of_holder _ "t_if" lit_eol_if hr,
    andThen_of_holder _ "t_ifnot" lit_eol_ifnot hr]

/-- A statement `make ...` at the head of the stream: `translate` calls `make` and goes on
with the state that `make` returns. -/
theorem translate_make (fuel : Nat) (toks : List String) (h cwd : String) (fs : FS)
    (out : List Event) :
    translate (fuel + 1) ⟨"t_make" :: toks, false, h, cwd, fs, out⟩
      = andThen (make fuel ⟨toks, false, "t_make", cwd, fs, out⟩) (translate fuel) := by
  have hr : ∀ s', make fuel ⟨toks, false, "t_make", cwd, fs, out⟩ = some (.ret s') →
      strcaseeq s'.holder2 "t_EndOfLine" = true := fun s' hs => make_ret_holder hs
  rw [translate]
  simp only [fgetsOk, fgets, fit_lt, fit_gt, fit_slash, fit_star, fit_eol, fit_go, fit_make,
    fit_if, fit_ifnot, fit_lbrace, fit_rbrace, List.isEmpty_cons, Bool.not_false, Bool.not_true,
    Bool.false_eq_true, ↓reduceIte, lit_make_go, lit_make_make, andThen_some_ret]
  rw [andThen_of_holder _ "t_if" lit_eol_if hr, andThen_of_holder _ "t_ifnot" lit_eol_ifnot hr]

/-- A statement `if ...` at the head of the stream: `translate` calls `ifPath_maker`, then
tests the buffer against `t_ifnot`, and goes on. -/
theorem translate_if (fuel : Nat) (toks : List String) (h cwd : String) (fs : FS)
    (out : List Event) :
    translate (fuel + 1) ⟨"t_if" :: toks, false, h, cwd, fs, out⟩
      = andThen (ifPath_maker fuel ⟨toks, false, "t_if", cwd, fs, out⟩) (fun s =>
          andThen (if strcaseeq s.holder2 "t_ifnot" then ifnot fuel s else some (.ret s))
            (translate fuel)) := by
  rw [translate]
  simp only [fgetsOk, fgets, fit_lt, fit_gt, fit_slash, fit_star, fit_eol, fit_go, fit_make,
    fit_if, fit_ifnot, fit_lbrace, fit_rbrace, List.isEmpty_cons, Bool.not_false, Bool.not_true,
    Bool.false_eq_true, ↓reduceIte, lit_if_go, lit_if_make, lit_if_if, andThen_some_ret]

/-! ## `if` and `ifnot` on a well-formed condition -/

/-- After a handler that left a semicolon in the buffer, the test for an opening brace
fails and nothing more is done. -/
theorem andThen_no_block (r : Option Outcome)
    (hr : ∀ s', r = some (.ret s') → strcaseeq s'.holder2 "t_EndOfLine" = true)
    (f : State → Option Outcome) :
    andThen r (fun s => if strcaseeq s.holder2 "t_LeftCurlyBrace" then f s
      else some (.ret s)) = r := by
  match r, hr with
  | none, _ => rfl
  | some (.exit c s), _ => rfl
  | some (.ret s), hr =>
    have := hr s rfl
    simp [andThen, strcaseeq_trans_left this "t_LeftCurlyBrace", lit_eol_lbrace]

/-- A condition that does not hold: `ifPath_maker` goes into the skipping loop. -/
theorem ifPath_maker_skip (k : Nat) (segs : List String)
    (hall : ∀ b ∈ segs, isDirectoryName b = true)
    (hfit : ∀ b ∈ segs, fitsRead b = true) (hne : k + segs.length ≠ 0)
    (fuel : Nat) (hf : k + 2 * segs.length + 3 ≤ fuel)
    (rest : List String) (h0 cwd : String) (fs : FS) (out : List Event)
    (hdir : isDir fs (appendSegs (popDir^[k] cwd) segs) = false) :
    ifPath_maker (fuel + 1) ⟨pathToks k segs ++ rest, false, h0, cwd, fs, out⟩
      = skip fuel ⟨rest, false, "t_GreaterThanSign", popDir^[k] cwd, fs,
          out ++ [.stat (appendSegs (popDir^[k] cwd) segs),
            .print ("Path: " ++ appendSegs (popDir^[k] cwd) segs ++
              " does not exist. Command following if clause will not be executed.\n")]⟩ := by
  obtain ⟨h, t, hb, hh⟩ := pathBody_cons k segs hfit hne
  have hp := pathLoop_wf k segs hall hfit hne fuel hf h
    (t ++ "t_GreaterThanSign" :: rest) rest false cwd fs out "" (by rw [hb]; simp)
  rw [ifPath_maker]
  simp only [fgets, fit_lt, fit_gt, fit_slash, fit_star, fit_eol, fit_go, fit_make, fit_if,
    fit_ifnot, fit_lbrace, fit_rbrace, hh, pathToks, hb, List.cons_append, List.append_assoc,
    List.nil_append, List.singleton_append, lit_lt_lt, if_true, hp, emit, hdir,
    Bool.false_eq_true, ↓reduceIte, List.append_assoc, List.cons_append, List.nil_append]

/-- A condition that holds, before a basic command: `ifPath_maker` runs the command. -/
theorem ifPath_maker_basic (k : Nat) (segs : List String)
    (hall : ∀ b ∈ segs, isDirectoryName b = true)
    (hfit : ∀ b ∈ segs, fitsRead b = true) (hne : k + segs.length ≠ 0)
    (fuel : Nat) (hf : k + 2 * segs.length + 3 ≤ fuel) (isGo : Bool)
    (rest : List String) (h0 cwd : String) (fs : FS) (out : List Event)
    (hdir : isDir fs (appendSegs (popDir^[k] cwd) segs) = true) :
    ifPath_maker (fuel + 1) ⟨pathToks k segs ++ basicKw isGo :: rest, false, h0, cwd, fs, out⟩
      = runBasic isGo fuel ⟨rest, false, basicKw isGo, popDir^[k] cwd, fs,
          out ++ [.stat (appendSegs (popDir^[k] cwd) segs),
            .print "Path exists. If statement will be executed.\n"]⟩ := by
  obtain ⟨h, t, hb, hh⟩ := pathBody_cons k segs hfit hne
  have hp := pathLoop_wf k segs hall hfit hne fuel hf h
    (t ++ "t_GreaterThanSign" :: basicKw isGo :: rest) (basicKw isGo :: rest) false cwd fs out ""
    (by rw [hb]; simp)
  rw [ifPath_maker]
  simp only [fgets, fit_lt, fit_gt, fit_slash, fit_star, fit_eol, fit_go, fit_make, fit_if,
    fit_ifnot, fit_lbrace, fit_rbrace, hh, pathToks, hb, List.cons_append, List.append_assoc,
    List.nil_append, List.singleton_append, lit_lt_lt, if_true, hp, emit, hdir,
    Bool.false_eq_true, ↓reduceIte, List.append_assoc, List.cons_append, List.nil_append]
  cases isGo
  · simp only [basicKw, Bool.false_eq_true, ↓reduceIte, lit_make_go, lit_make_make, runBasic]
    exact andThen_no_block _ (fun s' hs => make_ret_holder hs) _
  · simp only [basicKw, ↓reduceIte, lit_go_go, runBasic]
    exact andThen_no_block _ (fun s' hs => go_ret_holder hs) _

/-- A condition that holds: `ifnot` goes into the skipping loop. -/
theorem ifnot_skip (k : Nat) (segs : List String)
    (hall : ∀ b ∈ segs, isDirectoryName b = true)
    (hfit : ∀ b ∈ segs, fitsRead b = true) (hne : k + segs.length ≠ 0)
    (fuel : Nat) (hf : k + 2 * segs.length + 3 ≤ fuel)
    (rest : List String) (h0 cwd : String) (fs : FS) (out : List Event)
    (hdir : isDir fs (appendSegs (popDir^[k] cwd) segs) = true) :
    ifnot (fuel + 1) ⟨pathToks k segs ++ rest, false, h0, cwd, fs, out⟩
      = skip fuel ⟨rest, false, "t_GreaterThanSign", popDir^[k] cwd, fs,
          out ++ [.stat (appendSegs (popDir^[k] cwd) segs),
            .print "Path exists. Ifnot command will not be executed.\n"]⟩ := by
  obtain ⟨h, t, hb, hh⟩ := pathBody_cons k segs hfit hne
  have hp := pathLoop_wf k segs hall hfit hne fuel hf h
    (t ++ "t_GreaterThanSign" :: rest) rest false cwd fs out "" (by rw [hb]; simp)
  rw [ifnot]
  simp only [fgets, fit_lt, fit_gt, fit_slash, fit_star, fit_eol, fit_go, fit_make, fit_if,
    fit_ifnot, fit_lbrace, fit_rbrace, hh, pathToks, hb, List.cons_append, List.append_assoc,
    List.nil_append, List.singleton_append, lit_lt_lt, if_true, hp, emit, hdir,
    Bool.false_eq_true, ↓reduceIte, List.append_assoc, List.cons_append, List.nil_append]

/-- A condition that does not hold, before a basic command: `ifnot` runs the command. -/
theorem ifnot_basic (k : Nat) (segs : List String)
    (hall : ∀ b ∈ segs, isDirectoryName b = true)
    (hfit : ∀ b ∈ segs, fitsRead b = true) (hne : k + segs.length ≠ 0)
    (fuel : Nat) (hf : k + 2 * segs.length + 3 ≤ fuel) (isGo : Bool)
    (rest : List String) (h0 cwd : String) (fs : FS) (out : List Event)
    (hdir : isDir fs (appendSegs (popDir^[k] cwd) segs) = false) :
    ifnot (fuel + 1) ⟨pathToks k segs ++ basicKw isGo :: rest, false, h0, cwd, fs, out⟩
      = runBasic isGo fuel ⟨rest, false, basicKw isGo, popDir^[k] cwd, fs,
          out ++ [.stat (appendSegs (popDir^[k] cwd) segs),
            .print ("Path: " ++ appendSegs (popDir^[k] cwd) segs ++
              " does not exist. Command following ifnot clause will execute.\n")]⟩ := by
  obtain ⟨h, t, hb, hh⟩ := pathBody_cons k segs hfit hne
  have hp := pathLoop_wf k segs hall hfit hne fuel hf h
    (t ++ "t_GreaterThanSign" :: basicKw isGo :: rest) (basicKw isGo :: rest) false cwd fs out ""
    (by rw [hb]; simp)
  rw [ifnot]
  simp only [fgets, fit_lt, fit_gt, fit_slash, fit_star, fit_eol, fit_go, fit_make, fit_if,
    fit_ifnot, fit_lbrace, fit_rbrace, hh, pathToks, hb, List.cons_append, List.append_assoc,
    List.nil_append, List.singleton_append, lit_lt_lt, if_true, hp, emit, hdir,
    Bool.false_eq_true, ↓reduceIte, List.append_assoc, List.cons_append, List.nil_append]
  cases isGo
  · simp only [basicKw, Bool.false_eq_true, ↓reduceIte, lit_make_go, lit_make_make, runBasic]
    exact andThen_no_block _ (fun s' hs => make_ret_holder hs) _
  · simp only [basicKw, ↓reduceIte, lit_go_go, runBasic]
    exact andThen_no_block _ (fun s' hs => go_ret_holder hs) _

/-! ## Resolution and the working directory -/

/-- C1 on the code: from the working directory `C:\a\b`, the program
`make <*/x>; make <y>;` ends with the working directory `C:\a`: the first `make` clears
the last component of `cwd` at the `*` and never puts it back, and the second `make`
resolves `y` against `C:\a`, creating `C:\a\y` and not `C:\a\b\y`. -/
theorem make_up_reference_changes_cwd :
    translate 20 (start
        ["t_make", "t_LessThanSign", "t_Astrix", "t_ForwardSlash", "x", "t_GreaterThanSign",
         "t_EndOfLine",
         "t_make", "t_LessThanSign", "y", "t_GreaterThanSign", "t_EndOfLine"]
        "" "C:\\a\\b" ["C:", "C:\\a", "C:\\a\\b"])
      = some (.ret ⟨[], true, "t_EndOfLine", "C:\\a",
          ["C:", "C:\\a", "C:\\a\\b", "C:\\a\\x", "C:\\a\\y"],
          [.stat "C:\\a\\x", .system "mkdir -p C:\\a\\x",
           .print "Success. Path: 'C:\\a\\x' created with make command.\n",
           .stat "C:\\a\\y", .system "mkdir -p C:\\a\\y",
           .print "Success. Path: 'C:\\a\\y' created with make command.\n"]⟩) := by
  decide

/-- C2 on the code: from the working directory `C:\a\b`, where `C:\a\b` exists, the
program `if <*/b> make <y>;` takes the branch and creates `C:\a\y`, and the program
`ifnot <*/b> { make <y>; } make <w>;` skips the block and creates `C:\a\w`; both end with
the working directory `C:\a`: the condition clears the last component of `cwd` at the `*`
and the copy `cwd2` is never copied back. -/
theorem if_up_reference_changes_cwd :
    translate 20 (start
        ["t_if", "t_LessThanSign", "t_Astrix", "t_ForwardSlash", "b", "t_GreaterThanSign",
         "t_make", "t_LessThanSign", "y", "t_GreaterThanSign", "t_EndOfLine"]
        "" "C:\\a\\b" ["C:", "C:\\a", "C:\\a\\b"])
      = some (.ret ⟨[], true, "t_EndOfLine", "C:\\a",
          ["C:", "C:\\a", "C:\\a\\b", "C:\\a\\y"],
          [.stat "C:\\a\\b", .print "Path exists. If statement will be executed.\n",
           .stat "C:\\a\\y", .system "mkdir -p C:\\a\\y",
           .print "Success. Path: 'C:\\a\\y' created with make command.\n"]⟩) ∧
    translate 20 (start
        ["t_ifnot", "t_LessThanSign", "t_Astrix", "t_ForwardSlash", "b", "t_GreaterThanSign",
         "t_LeftCurlyBrace",
         "t_make", "t_LessThanSign", "y", "t_GreaterThanSign", "t_EndOfLine",
         "t_RightCurlyBrace",
         "t_make", "t_LessThanSign", "w", "t_GreaterThanSign", "t_EndOfLine"]
        "" "C:\\a\\b" ["C:", "C:\\a", "C:\\a\\b"])
      = some (.ret ⟨[], true, "t_EndOfLine", "C:\\a",
          ["C:", "C:\\a", "C:\\a\\b", "C:\\a\\w"],
          [.stat "C:\\a\\b", .print "Path exists. Ifnot command will not be executed.\n",
           .stat "C:\\a\\w", .system "mkdir -p C:\\a\\w",
           .print "Success. Path: 'C:\\a\\w' created with make command.\n"]⟩) := by
  decide

/-- C7 on the code: with `C:\a\missing` absent, the program
`if <missing> make <y>; make <w>;` creates nothing at all: the skipping loop does not stop
at the semicolon of `make <y>;` but reads on to the end of the file, so `make <w>;` is
never executed and `C:\a\w` does not exist at the end. -/
theorem skip_runs_past_semicolon :
    translate 20 (start
        ["t_if", "t_LessThanSign", "missing", "t_GreaterThanSign",
         "t_make", "t_LessThanSign", "y", "t_GreaterThanSign", "t_EndOfLine",
         "t_make", "t_LessThanSign", "w", "t_GreaterThanSign", "t_EndOfLine"]
        "" "C:\\a" ["C:", "C:\\a"])
      = some (.ret ⟨[], true, "t_EndOfLine", "C:\\a", ["C:", "C:\\a"],
          [.stat "C:\\a\\missing",
           .print ("Path: C:\\a\\missing does not exist. "
             ++ "Command following if clause will not be executed.\n")]⟩) ∧
    isDir ["C:", "C:\\a"] "C:\\a\\w" = false := by
  decide

/-- C8 on the code: with `C:\a\missing` absent, the program
`if <missing> { if <x> { make <p>; } make <q>; }` creates `C:\a\q`: the skipping loop
stops at the first `t_RightCurlyBrace`, the one of the inner block, and `translate` goes on
with `make <q>;`. -/
theorem skip_stops_at_first_brace :
    translate 30 (start
        ["t_if", "t_LessThanSign", "missing", "t_GreaterThanSign", "t_LeftCurlyBrace",
         "t_if", "t_LessThanSign", "x", "t_GreaterThanSign", "t_LeftCurlyBrace",
         "t_make", "t_LessThanSign", "p", "t_GreaterThanSign", "t_EndOfLine",
         "t_RightCurlyBrace",
         "t_make", "t_LessThanSign", "q", "t_GreaterThanSign", "t_EndOfLine",
         "t_RightCurlyBrace"]
        "" "C:\\a" ["C:", "C:\\a"])
      = some (.ret ⟨[], true, "t_RightCurlyBrace", "C:\\a", ["C:", "C:\\a", "C:\\a\\q"],
          [.stat "C:\\a\\missing",
           .print ("Path: C:\\a\\missing does not exist. "
             ++ "Command following if clause will not be executed.\n"),
           .stat "C:\\a\\q", .system "mkdir -p C:\\a\\q",
           .print "Success. Path: 'C:\\a\\q' created with make command.\n"]⟩) ∧
    isDir ["C:", "C:\\a", "C:\\a\\q"] "C:\\a\\q" = true := by
  decide

/-! ## The lexer -/

theorem flush_ne_unrecognized (holder : List Char) (out : List String) (h : String) :
    flush holder out ≠ .error (.unrecognized h) := by
  unfold flush
  split
  · split
    · simp
    · next tokenType heq =>
      split
      · simp
      · split
        · simp
        · split
          · next hn => simp [heq] at hn
          · simp
  · simp

theorem flush_holder (holder : List Char) (out : List String) (hd : List Char)
    (out' : List String) (h : flush holder out = .ok (hd, out')) : hd = [] := by
  unfold flush at h
  split at h
  · split at h
    · simp at h
    · split at h
      · simp at h; exact h.1
      · split at h
        · simp at h; exact h.1
        · split at h
          · simp at h
          · simp at h; exact h.1
  · simp at h; exact h.1

/-- The error branch of lines 155-159 is dead: whatever the source, the lexer loop does
not end in the unrecognized-character error. -/
theorem lexLoop_ne_unrecognized (PATH_MAX : Nat) (cs : List Char) :
    ∀ (holder : List Char) (out : List String) (h : String),
      lexLoop PATH_MAX cs holder out ≠ .unrecognized h := by
  induction cs with
  | nil => intro holder out h; simp [lexLoop]
  | cons c cs ih =>
    intro holder out h
    rw [lexLoop]
    split
    · next r heq =>
      split at heq
      · intro hr
        subst hr
        exact flush_ne_unrecognized holder out h heq
      · simp at heq
    · next hd out' heq =>
      split
      · exact ih _ _ _
      · split
        · exact ih _ _ _
        · split
          · exact ih _ _ _
          · split
            · exact ih _ _ _
            · split
              · simp
              · split
                · split
                  · exact ih _ _ _
                  · simp
                · exact ih _ _ _

/-- The write `holder[index] = c` stays inside the buffer: whatever the source, the lexer
loop does not end in an overflow, the test of `index` coming before every write. -/
theorem lexLoop_ne_overflow (PATH_MAX : Nat) (cs : List Char) :
    ∀ (holder : List Char) (out : List String),
      lexLoop PATH_MAX cs holder out ≠ .overflow := by
  induction cs with
  | nil => intro holder out; simp [lexLoop]
  | cons c cs ih =>
    intro holder out
    rw [lexLoop]
    split
    · next r heq =>
      split at heq
      · intro hr
        subst hr
        unfold flush at heq
        split at heq
        · split at heq
          · simp at heq
          · split at heq
            · simp at heq
            · split at heq
              · simp at heq
              · split at heq
                · simp at heq
                · simp at heq
        · simp at heq
      · simp at heq
    · next hd out' heq =>
      split
      · exact ih _ _
      · split
        · exact ih _ _
        · split
          · exact ih _ _
          · split
            · exact ih _ _
            · split
              · simp
              · split
                · split
                  · exact ih _ _
                  · next hlen hsp hw =>
                    exfalso
                    have : (hd.length : Int) ≤ (PATH_MAX : Int) - 1 := by omega
                    omega
                · exact ih _ _

theorem identChar_not_separator {c : Char} (h : identChar c = true) :
    isSeparator c = false := by
  have key : ∀ d : Char, identChar d = false → c ≠ d := by
    intro d hd hcd
    rw [hcd, hd] at h
    exact Bool.false_ne_true h
  have kv : ∀ (d : Char) (n : UInt32), d.val = n → identChar d = false → c.val ≠ n := by
    intro d n hn hd hcd
    exact key d hd (Char.ext (hcd.trans hn.symm))
  have h1 := key ';' (by decide)
  have h2 := key '*' (by decide)
  have h3 := key '/' (by decide)
  have h4 := kv '{' 123 (by decide) (by decide)
  have h5 := kv '}' 125 (by decide) (by decide)
  have h6 := kv '<' 60 (by decide) (by decide)
  have h7 := kv '>' 62 (by decide) (by decide)
  have h8 := key ' ' (by decide)
  have h9 := key '\t' (by decide)
  have h10 := key '\n' (by decide)
  have h11 := kv (Char.ofNat 11) 11 (by decide) (by decide)
  have h12 := kv (Char.ofNat 12) 12 (by decide) (by decide)
  have h13 := key '\r' (by decide)
  simp [isSeparator, isbracket, isspace, h1, h2, h3, h4, h5, h6, h7, h8, h9, h10, h11, h12, h13]

theorem identChar_of_checkIfAlphaString {run : List Char}
    (h : checkIfAlphaString (String.mk run) = true) : ∀ c ∈ run, identChar c = true := by
  cases run with
  | nil => simp [checkIfAlphaString] at h
  | cons a r =>
    simp only [checkIfAlphaString, Bool.and_eq_true, List.all_eq_true, Bool.or_eq_true,
      beq_iff_eq] at h
    intro c hc
    rcases List.mem_cons.1 hc with rfl | hc
    · simp [identChar, Char.isAlphanum, h.1]
    · simpa [identChar] using h.2 c hc

/-- One character of a lexeme: it is stored in `holder` as long as `index` is at most
`PATH_MAX - 1`. -/
theorem lexLoop_store (PATH_MAX : Nat) (c : Char) (cs holder : List Char) (out : List String)
    (hc : isSeparator c = false) (hlen : holder.length < PATH_MAX) :
    lexLoop PATH_MAX (c :: cs) holder out = lexLoop PATH_MAX cs (holder ++ [c]) out := by
  simp only [isSeparator, Bool.or_eq_false_iff, beq_eq_false_iff_ne, ne_eq] at hc
  obtain ⟨⟨⟨⟨h1, h2⟩, h3⟩, h4⟩, h5⟩ := hc
  have h4' : isbracket c = none := by
    cases hb : isbracket c with
    | none => rfl
    | some b => simp [hb] at h4
  have hlt : ¬ ((holder.length : Int) > (PATH_MAX : Int) - 1) := by omega
  rw [lexLoop]
  simp [h1, h2, h3, h4', h5, hlt]
  omega

/-- One character of a lexeme with `index` already at `PATH_MAX`: the lexer stops with the
message of lines 196-200. -/
theorem lexLoop_full (PATH_MAX : Nat) (c : Char) (cs holder : List Char) (out : List String)
    (hc : isSeparator c = false) (hlen : PATH_MAX ≤ holder.length) :
    lexLoop PATH_MAX (c :: cs) holder out = .tooLong := by
  simp only [isSeparator, Bool.or_eq_false_iff, beq_eq_false_iff_ne, ne_eq] at hc
  obtain ⟨⟨⟨⟨h1, h2⟩, h3⟩, h4⟩, h5⟩ := hc
  have h4' : isbracket c = none := by
    cases hb : isbracket c with
    | none => rfl
    | some b => simp [hb] at h4
  have hlt : (holder.length : Int) > (PATH_MAX : Int) - 1 := by omega
  rw [lexLoop]
  simp [h1, h2, h3, h4', h5, hlt]

theorem lexLoop_run (PATH_MAX : Nat) (run : List Char) :
    ∀ (holder tail : List Char) (out : List String),
      (∀ c ∈ run, isSeparator c = false) → holder.length + run.length ≤ PATH_MAX →
      lexLoop PATH_MAX (run ++ tail) holder out = lexLoop PATH_MAX tail (holder ++ run) out := by
  induction run with
  | nil => intro holder tail out _ _; simp
  | cons c r ih =>
    intro holder tail out hall hlen
    simp only [List.length_cons] at hlen
    rw [List.cons_append, lexLoop_store PATH_MAX c _ holder out (hall c (by simp)) (by omega),
      ih (holder ++ [c]) tail out (fun d hd => hall d (by simp [hd]))
        (by simp only [List.length_append, List.length_singleton]; omega)]
    simp

theorem lexLoop_run_tooLong (PATH_MAX : Nat) (run : List Char) :
    ∀ (holder tail : List Char) (out : List String),
      (∀ c ∈ run, isSeparator c = false) → holder.length ≤ PATH_MAX →
      PATH_MAX < holder.length + run.length →
      lexLoop PATH_MAX (run ++ tail) holder out = .tooLong := by
  induction run with
  | nil => intro holder tail out _ h1 h2; simp at h2; omega
  | cons c r ih =>
    intro holder tail out hall h1 h2
    simp only [List.length_cons] at h2
    rcases Nat.lt_or_ge holder.length PATH_MAX with hlt | hge
    · rw [List.cons_append, lexLoop_store PATH_MAX c _ holder out (hall c (by simp)) hlt]
      exact ih (holder ++ [c]) tail out (fun d hd => hall d (by simp [hd]))
        (by simp only [List.length_append, List.length_singleton]; omega)
        (by simp only [List.length_append, List.length_singleton]; omega)
    · exact lexLoop_full PATH_MAX c _ holder out (hall c (by simp)) hge

theorem lit_go_dirname : strcaseeq "t_go" "t_DirectoryName" = false := by decide
theorem lit_make_dirname : strcaseeq "t_make" "t_DirectoryName" = false := by decide
theorem lit_if_dirname : strcaseeq "t_if" "t_DirectoryName" = false := by decide
theorem lit_ifnot_dirname : strcaseeq "t_ifnot" "t_DirectoryName" = false := by decide
theorem lit_dirname_dirname : strcaseeq "t_DirectoryName" "t_DirectoryName" = true := by
  decide
theorem lit_ifnot_ifnot : strcaseeq "t_ifnot" "t_ifnot" = true := by decide

/-- An identifier in `holder` at a separator: its line is written and `holder` is reset. -/
theorem flush_identifier (run : List Char) (out : List String)
    (hid : checkIfAlphaString (String.mk run) = true) :
    flush run out = .ok ([], out ++ [lexemeLine run]) := by
  have hne : run ≠ [] := by
    intro h
    subst h
    simp [checkIfAlphaString] at hid
  by_cases h1 : streq (String.mk run) "go" = true
  · simp [flush, lexemeLine, findTokenType, checkIfKeyWord, hne, h1, lit_go_dirname, lit_go_go]
  · by_cases h2 : streq (String.mk run) "make" = true
    · simp [flush, lexemeLine, findTokenType, checkIfKeyWord, hne, h1, h2, lit_make_dirname,
        lit_make_make]
    · by_cases h3 : streq (String.mk run) "if" = true
      · simp [flush, lexemeLine, findTokenType, checkIfKeyWord, hne, h1, h2, h3,
          lit_if_dirname, lit_if_if]
      · by_cases h4 : streq (String.mk run) "ifnot" = true
        · simp [flush, lexemeLine, findTokenType, checkIfKeyWord, hne, h1, h2, h3, h4,
            lit_ifnot_dirname, lit_ifnot_ifnot]
        · simp [flush, lexemeLine, findTokenType, checkIfKeyWord, hne, h1, h2, h3, h4, hid,
            lit_dirname_dirname]

/-- A separator after a flush: its own line, if it has one, is written. -/
theorem lexLoop_separator (PATH_MAX : Nat) (hpm : 1 ≤ PATH_MAX) (d : Char)
    (rest holder : List Char) (out out1 : List String)
    (hd : isSeparator d = true) (hfl : flush holder out = .ok ([], out1)) :
    lexLoop PATH_MAX (d :: rest) holder out = lexLoop PATH_MAX rest [] (out1 ++ sepLines d) := by
  have hd' := hd
  simp only [isSeparator] at hd'
  rw [lexLoop]
  simp only [hd', ↓reduceIte, hfl, sepLines]
  split
  · rfl
  · split
    · rfl
    · split
      · rfl
      · next h1 h2 h3 =>
        split
        · next b hb => simp [hb]
        · next hb =>
          have hsp : isspace d = true := by
            simpa [h1, h2, h3, hb] using hd'
          have hlt : ¬ (((([] : List Char).length : Nat) : Int) > (PATH_MAX : Int) - 1) := by
            simp only [List.length_nil]; omega
          simp [hb, hsp, hlt]
          omega

/-- C20: for every identifier run read from an empty `holder` and followed by a
separator, the lexer writes the line of the identifier (and the line of the separator, if
it has one) and goes on when the run has at most `PATH_MAX` characters, and ends with the
identifier-too-long error when it has more; and no source at all makes the lexer write
outside the `PATH_MAX + 1` characters of `holder`. -/
theorem identifier_length_limit (PATH_MAX : Nat) (run : List Char) (d : Char)
    (rest : List Char) (out : List String)
    (hid : checkIfAlphaString (String.mk run) = true) (hd : isSeparator d = true) :
    (run.length ≤ PATH_MAX →
      lexLoop PATH_MAX (run ++ d :: rest) [] out
        = lexLoop PATH_MAX rest [] (out ++ [lexemeLine run] ++ sepLines d)) ∧
    (PATH_MAX < run.length → lexLoop PATH_MAX (run ++ d :: rest) [] out = .tooLong) ∧
    (∀ src : String, lexer PATH_MAX src ≠ .overflow) := by
  have hall : ∀ c ∈ run, isSeparator c = false :=
    fun c hc => identChar_not_separator (identChar_of_checkIfAlphaString hid c hc)
  have hne : run ≠ [] := by
    intro h
    subst h
    simp [checkIfAlphaString] at hid
  have hpos : 1 ≤ run.length := by
    cases run with
    | nil => exact absurd rfl hne
    | cons a r => simp
  refine ⟨?_, ?_, fun src => lexLoop_ne_overflow PATH_MAX src.data [] []⟩
  · intro hlen
    rw [lexLoop_run PATH_MAX run [] (d :: rest) out hall (by simpa using hlen), List.nil_append,
      lexLoop_separator PATH_MAX (by omega) d rest run out _ hd (flush_identifier run out hid)]
  · intro hlen
    exact lexLoop_run_tooLong PATH_MAX run [] (d :: rest) out hall (by simp) (by simpa using hlen)

theorem identifier_length_limit_witness :
    lexLoop 3 (['a', 'B', 'c'] ++ ';' :: ['x']) [] []
        = lexLoop 3 ['x'] [] ([] ++ [lexemeLine ['a', 'B', 'c']] ++ sepLines ';') ∧
    lexLoop 3 (['a', 'B', 'c', 'd'] ++ ';' :: ['x']) [] [] = .tooLong :=
  ⟨(identifier_length_limit 3 ['a', 'B', 'c'] ';' ['x'] [] (by decide) (by decide)).1
      (by decide),
   (identifier_length_limit 3 ['a', 'B', 'c', 'd'] ';' ['x'] [] (by decide) (by decide)).2.1
      (by decide)⟩

/-! ## The validation pass on well-formed path expressions -/

theorem lit_star_not_dirname : isDirectoryName "t_Astrix" = false := by decide
theorem lit_gt_not_dirname : isDirectoryName "t_GreaterThanSign" = false := by decide

/-- The loop of `check_path` on a name followed by well-formed input: it returns true on
the closing sign. -/
theorem checkLoop_segs (segs : List String) :
    ∀ (a : String) (fuel : Nat) (rest : List String) (cwd : String) (fs : FS)
      (out : List Event),
      isDirectoryName a = true → (∀ b ∈ segs, isDirectoryName b = true) →
      (∀ b ∈ segs, fitsRead b = true) → segs.length + 1 ≤ fuel →
      checkLoop fuel ⟨sepToks segs ++ "t_GreaterThanSign" :: rest, false, a, cwd, fs, out⟩
        = some (true, ⟨rest, false, "t_GreaterThanSign", cwd, fs, out⟩) := by
  induction segs with
  | nil =>
    intro a fuel rest cwd fs out ha _ _ hf
    obtain ⟨n, rfl⟩ : ∃ n, fuel = n + 1 := ⟨fuel - 1, by simp at hf; omega⟩
    rw [checkLoop]
    simp [ha, sepToks, fgets, fit_lt, fit_gt, fit_slash, fit_star, fit_eol, fit_go, fit_make,
      fit_if, fit_ifnot, fit_lbrace, fit_rbrace, lit_gt_slash]
  | cons b r ih =>
    intro a fuel rest cwd fs out ha hall hfit hf
    obtain ⟨n, rfl⟩ : ∃ n, fuel = n + 1 := ⟨fuel - 1, by simp at hf; omega⟩
    have hb := hall b (by simp)
    have hbf := hfit b (by simp)
    obtain ⟨_, _, hb3, _, _⟩ := dirname_props hb
    rw [checkLoop]
    simp only [ha, ↓reduceIte, sepToks, List.cons_append, hbf, fgets, fit_lt, fit_gt, fit_slash,
      fit_star, fit_eol, fit_go, fit_make, fit_if, fit_ifnot, fit_lbrace, fit_rbrace,
      Bool.false_eq_true, lit_slash_slash, hb3]
    exact ih b n rest cwd fs out hb (fun c hc => hall c (by simp [hc]))
      (fun c hc => hfit c (by simp [hc])) (by simp at hf; omega)

/-- The loop of `check_path` on well-formed input that starts with an up-reference. -/
theorem checkLoop_stars (k : Nat) (segs : List String)
    (hall : ∀ b ∈ segs, isDirectoryName b = true)
    (hfit : ∀ b ∈ segs, fitsRead b = true) :
    ∀ (fuel : Nat) (rest : List String) (cwd : String) (fs : FS) (out : List Event),
      2 * k + segs.length + 3 ≤ fuel →
      checkLoop fuel
          ⟨sepToks (List.replicate k "t_Astrix" ++ segs) ++ "t_GreaterThanSign" :: rest,
            false, "t_Astrix", cwd, fs, out⟩
        = some (true, ⟨rest, false, "t_GreaterThanSign", cwd, fs, out⟩) := by
  induction k with
  | zero =>
    intro fuel rest cwd fs out hf
    obtain ⟨n, rfl⟩ : ∃ n, fuel = n + 2 := ⟨fuel - 2, by omega⟩
    cases segs with
    | nil =>
      rw [checkLoop]
      simp [lit_star_not_dirname, lit_star_star, sepToks, fgets, fit_lt, fit_gt, fit_slash,
        fit_star, fit_eol, fit_go, fit_make, fit_if, fit_ifnot, fit_lbrace, fit_rbrace,
        lit_gt_slash]
    | cons a r =>
      have ha := hall a (by simp)
      have haf := hfit a (by simp)
      have hr : ∀ c ∈ r, isDirectoryName c = true := fun c hc => hall c (by simp [hc])
      have hrf : ∀ c ∈ r, fitsRead c = true := fun c hc => hfit c (by simp [hc])
      have h := checkLoop_segs r a n rest cwd fs out ha hr hrf (by simp at hf; omega)
      rw [checkLoop]
      simp only [haf, lit_star_not_dirname, Bool.false_eq_true, ↓reduceIte, lit_star_star,
        List.replicate_zero, List.nil_append, sepToks, List.cons_append, fgets, fit_lt, fit_gt,
        fit_slash, fit_star, fit_eol, fit_go, fit_make, fit_if, fit_ifnot, fit_lbrace, fit_rbrace,
        lit_slash_slash]
      rw [check_path]
      simp only [haf, fgets, fit_lt, fit_gt, fit_slash, fit_star, fit_eol, fit_go, fit_make,
        fit_if, fit_ifnot, fit_lbrace, fit_rbrace, Bool.false_eq_true, ↓reduceIte, h]
  | succ k ih =>
    intro fuel rest cwd fs out hf
    obtain ⟨n, rfl⟩ : ∃ n, fuel = n + 2 := ⟨fuel - 2, by omega⟩
    have h := ih n rest cwd fs out (by omega)
    rw [checkLoop]
    simp only [lit_star_not_dirname, Bool.false_eq_true, ↓reduceIte, lit_star_star,
      List.replicate_succ, List.cons_append, sepToks, fgets, fit_lt, fit_gt, fit_slash, fit_star,
      fit_eol, fit_go, fit_make, fit_if, fit_ifnot, fit_lbrace, fit_rbrace, lit_slash_slash]
    rw [check_path]
    simp only [fgets, fit_lt, fit_gt, fit_slash, fit_star, fit_eol, fit_go, fit_make, fit_if,
      fit_ifnot, fit_lbrace, fit_rbrace, Bool.false_eq_true, ↓reduceIte]
    rw [show (List.replicate k "t_Astrix").append segs = List.replicate k "t_Astrix" ++ segs
      from rfl] at *
    rw [h]

/-- The function `check_path` on the body of any well-formed path expression whose names
are directory names for its own test: it returns true with the buffer on the closing
sign, nothing printed and nothing else touched. -/
theorem check_path_wf (k : Nat) (segs : List String)
    (hall : ∀ b ∈ segs, isDirectoryName b = true)
    (hfit : ∀ b ∈ segs, fitsRead b = true) (hne : k + segs.length ≠ 0)
    (fuel : Nat) (hf : 2 * k + segs.length + 4 ≤ fuel)
    (rest : List String) (h0 cwd : String) (fs : FS) (out : List Event) :
    check_path fuel ⟨pathBody k segs ++ "t_GreaterThanSign" :: rest, false, h0, cwd, fs, out⟩
      = some (true, ⟨rest, false, "t_GreaterThanSign", cwd, fs, out⟩) := by
  obtain ⟨n, rfl⟩ : ∃ n, fuel = n + 1 := ⟨fuel - 1, by omega⟩
  rw [check_path]
  cases k with
  | zero =>
    cases segs with
    | nil => simp at hne
    | cons a r =>
      simp only [pathBody, List.replicate_zero, List.nil_append, intersperse_cons_sepToks,
        List.cons_append, hfit a (by simp), fgets, fit_lt, fit_gt, fit_slash, fit_star, fit_eol,
        fit_go, fit_make, fit_if, fit_ifnot, fit_lbrace, fit_rbrace, Bool.false_eq_true,
        ↓reduceIte]
      exact checkLoop_segs r a n rest cwd fs out (hall a (by simp))
        (fun c hc => hall c (by simp [hc])) (fun c hc => hfit c (by simp [hc]))
        (by simp at hf; omega)
  | succ k =>
    simp only [pathBody, List.replicate_succ, List.cons_append, intersperse_cons_sepToks, fgets,
      fit_lt, fit_gt, fit_slash, fit_star, fit_eol, fit_go, fit_make, fit_if, fit_ifnot,
      fit_lbrace, fit_rbrace, Bool.false_eq_true, ↓reduceIte]
    exact checkLoop_stars k segs hall hfit n rest cwd fs out (by omega)

/-- The validation pass over a well-formed path expression: nothing is printed and the
pass goes on behind the closing sign. -/
theorem validate_wf (k : Nat) (segs : List String)
    (hall : ∀ b ∈ segs, isDirectoryName b = true)
    (hfit : ∀ b ∈ segs, fitsRead b = true) (hne : k + segs.length ≠ 0)
    (fuel : Nat) (hf : 2 * k + segs.length + 4 ≤ fuel)
    (rest : List String) (h0 cwd : String) (fs : FS) (out : List Event) :
    validate (fuel + 1) ⟨pathToks k segs ++ rest, false, h0, cwd, fs, out⟩
      = validate fuel ⟨rest, false, "t_GreaterThanSign", cwd, fs, out⟩ := by
  have h := check_path_wf k segs hall hfit hne fuel hf rest "t_LessThanSign" cwd fs out
  rw [validate]
  simp only [pathToks, List.cons_append, List.append_assoc, List.singleton_append, fgetsOk,
    List.isEmpty_cons, Bool.not_false, Bool.not_true, Bool.false_eq_true, ↓reduceIte, fgets,
    fit_lt, fit_gt, fit_slash, fit_star, fit_eol, fit_go, fit_make, fit_if, fit_ifnot, fit_lbrace,
    fit_rbrace, lit_lt_lt, List.nil_append, h, lit_gt_gt]

/-- C19 on the code: for a run that is neither a keyword nor an identifier, such as `a-b`,
`1abc` or `_x`, `findTokenType` returns `NULL` and line 140 passes it to `strcasecmp`
before line 155 tests it: the lexer meets undefined behaviour, and the run of the program
with it, instead of printing the unrecognized-character error; indeed no source at all
makes the lexer end in that error. -/
theorem unrecognized_error_never_reached :
    (∀ (PATH_MAX : Nat) (src holder : String), lexer PATH_MAX src ≠ .unrecognized holder) ∧
    lexer 260 "a-b;" = .nullStrcasecmp "a-b" ∧
    lexer 260 "make <1abc>;" = .nullStrcasecmp "1abc" ∧
    lexer 260 "make <a>; _x " = .nullStrcasecmp "_x" ∧
    main 260 "a-b;" "C:\\w" ["C:", "C:\\w"] 30 = some .undefined :=
  ⟨fun PATH_MAX src holder => lexLoop_ne_unrecognized PATH_MAX src.data [] [] holder,
    by decide, by decide, by decide, by decide⟩

/-! ## Runs that the validation pass reports and does not stop -/

/-- C11 on the code: the source `make <a/*/b>;` is lexed, the validation pass prints that
the `<` is not followed by a valid path name and goes on, and `translate` executes the
statement: the run ends with status 0 after a `stat` and a `mkdir -p` of
`C:\w\a\t_Astrix\b`. -/
theorem star_after_segment_still_executes :
    main 260 "make <a/*/b>;" "C:\\w" ["C:", "C:\\w"] 30
      = some (.finished 0 ["C:", "C:\\w", "C:\\w\\a", "C:\\w\\a\\t_Astrix", "C:\\w\\a\\t_Astrix\\b"]
          [.print "Current directory: C:\\w\n",
           .print ("Error. Less than sign was not followed by a valid path name: "
             ++ "<INVALID_PATH_NAME\n"),
           .stat "C:\\w\\a\\t_Astrix\\b",
           .system "mkdir -p C:\\w\\a\\t_Astrix\\b",
           .print "Success. Path: 'C:\\w\\a\\t_Astrix\\b' created with make command.\n"]) := by
  decide

/-- C12 on the code: for `make </a/b>;` the validation pass prints its message and goes
on, and `translate` executes the statement (a `stat` and a `mkdir -p` of `C:\w\a\b`); for
`make <*/>;` `check_path` even reports a valid path, since the result of its recursive
call is dropped: the validation pass prints nothing and the statement is executed with a
`stat` of `C:`. -/
theorem slash_at_edge_still_executes :
    main 260 "make </a/b>;" "C:\\w" ["C:", "C:\\w"] 30
      = some (.finished 0 ["C:", "C:\\w", "C:\\w\\a", "C:\\w\\a\\b"]
          [.print "Current directory: C:\\w\n",
           .print ("Error. Less than sign was not followed by a valid path name: "
             ++ "<INVALID_PATH_NAME\n"),
           .stat "C:\\w\\a\\b",
           .system "mkdir -p C:\\w\\a\\b",
           .print "Success. Path: 'C:\\w\\a\\b' created with make command.\n"]) ∧
    check_path 10 ⟨["t_Astrix", "t_ForwardSlash", "t_GreaterThanSign", "t_EndOfLine"], false,
        "t_LessThanSign", "C:\\w", ["C:", "C:\\w"], []⟩
      = some (true, ⟨["t_EndOfLine"], false, "t_GreaterThanSign", "C:\\w", ["C:", "C:\\w"], []⟩) ∧
    main 260 "make <*/>;" "C:\\w" ["C:", "C:\\w"] 30
      = some (.finished 0 ["C:", "C:\\w"]
          [.print "Current directory: C:\\w\n",
           .stat "C:",
           .print "Path already exists. Make statement will not be executed.\n"]) := by
  decide

/-- C13 on the code: for `make <>;` the validation pass prints its message and goes on,
and `translate` executes the statement with an empty `folder`: a `stat` of the empty path
and a call `system("mkdir -p ")`, and the run ends with status 0. -/
theorem empty_path_still_executes :
    main 260 "make <>;" "C:\\w" ["C:", "C:\\w"] 30
      = some (.finished 0 ["C:", "C:\\w"]
          [.print "Current directory: C:\\w\n",
           .print ("Error. Less than sign was not followed by a valid path name: "
             ++ "<INVALID_PATH_NAME\n"),
           .stat "",
           .system "mkdir -p ",
           .print "Success. Path: '' created with make command.\n"]) := by
  decide

/-- C14 on the code: the directory name `t_EndOfLine` is lexed to the line `t_endofline`;
`check_path` takes that line for a reserved one and returns false, and the validation
pass prints its error message for the well-formed expression `<t_EndOfLine>`. -/
theorem reserved_name_not_accepted :
    lexer 260 "make <t_EndOfLine>;"
      = .ok ["t_make", "t_LessThanSign", "t_endofline", "t_GreaterThanSign", "t_EndOfLine"] ∧
    check_path 10 ⟨["t_endofline", "t_GreaterThanSign", "t_EndOfLine"], false,
        "t_LessThanSign", "C:\\w", ["C:", "C:\\w"], []⟩
      = some (false, ⟨["t_GreaterThanSign", "t_EndOfLine"], false, "t_endofline", "C:\\w",
          ["C:", "C:\\w"], []⟩) ∧
    validate 10 ⟨["t_make", "t_LessThanSign", "t_endofline", "t_GreaterThanSign", "t_EndOfLine"],
        false, "", "C:\\w", ["C:", "C:\\w"], []⟩
      = some (.ret ⟨[], true, "t_EndOfLine", "C:\\w", ["C:", "C:\\w"],
          [.print ("Error. Less than sign was not followed by a valid path name: "
             ++ "<INVALID_PATH_NAME\n")]⟩) := by
  decide

/-- C16 on the code: the runs of `make <a>` (no semicolon), of `go a;` (keyword not
followed by `<`) and of `if <a>` with `C:\w\a` existing (end of input in the middle of a
statement) all print their error message and end with status 0, the handlers calling
`exit(0)`; only the missing `>` of `make <a ;`, found by the validation pass, ends with
status 1. -/
theorem fatal_errors_exit_zero :
    main 260 "make <a>" "C:\\w" ["C:", "C:\\w"] 30
      = some (.finished 0 ["C:", "C:\\w"]
          [.print "Current directory: C:\\w\n",
           .print "Error. 'make' statement was not followed by a semicolon. Exiting...\n"]) ∧
    main 260 "go a;" "C:\\w" ["C:", "C:\\w"] 30
      = some (.finished 0 ["C:", "C:\\w"]
          [.print "Current directory: C:\\w\n",
           .print ("Error. 'go' statement should be followed by a path name: "
             ++ "'<PATH_NAME>'.\n")]) ∧
    main 260 "if <a>" "C:\\w" ["C:", "C:\\w", "C:\\w\\a"] 30
      = some (.finished 0 ["C:", "C:\\w", "C:\\w\\a"]
          [.print "Current directory: C:\\w\n",
           .stat "C:\\w\\a",
           .print "Path exists. If statement will be executed.\n",
           .print "Error. End of file reached without a command completing.\n"]) ∧
    main 260 "make <a ;" "C:\\w" ["C:", "C:\\w"] 30
      = some (.finished 1 ["C:", "C:\\w"]
          [.print "Current directory: C:\\w\n",
           .print "Error. Missing greater than sign after path name: <INVALID_PATH_NAME\n"]) := by
  decide

/-- C17 on the code: the run of `make <a>; }`, with a `}` that closes no block, ends with
status 0 and no diagnostic; the run of `if <a> { make <b>;`, with a `{` never closed,
prints the brace message only after reading the whole stream and ends with status 0; and
the run of the balanced `if <a> { make <b>; } make <c>;` prints the same brace message
after executing both `make` statements. -/
theorem braces_not_checked :
    main 260 "make <a>; \x7d" "C:\\w" ["C:", "C:\\w"] 30
      = some (.finished 0 ["C:", "C:\\w", "C:\\w\\a"]
          [.print "Current directory: C:\\w\n",
           .stat "C:\\w\\a",
           .system "mkdir -p C:\\w\\a",
           .print "Success. Path: 'C:\\w\\a' created with make command.\n"]) ∧
    main 260 "if <a> \x7b make <b>;" "C:\\w" ["C:", "C:\\w", "C:\\w\\a"] 30
      = some (.finished 0 ["C:", "C:\\w", "C:\\w\\a", "C:\\w\\b"]
          [.print "Current directory: C:\\w\n",
           .stat "C:\\w\\a",
           .print "Path exists. If statement will be executed.\n",
           .stat "C:\\w\\b",
           .system "mkdir -p C:\\w\\b",
           .print "Success. Path: 'C:\\w\\b' created with make command.\n",
           .print "Error. Left curly brace not closed with a right curly brace.\n"]) ∧
    main 260 "if <a> \x7b make <b>; \x7d make <c>;" "C:\\w" ["C:", "C:\\w", "C:\\w\\a"] 30
      = some (.finished 0 ["C:", "C:\\w", "C:\\w\\a", "C:\\w\\b", "C:\\w\\c"]
          [.print "Current directory: C:\\w\n",
           .stat "C:\\w\\a",
           .print "Path exists. If statement will be executed.\n",
           .stat "C:\\w\\b",
           .system "mkdir -p C:\\w\\b",
           .print "Success. Path: 'C:\\w\\b' created with make command.\n",
           .stat "C:\\w\\c",
           .system "mkdir -p C:\\w\\c",
           .print "Success. Path: 'C:\\w\\c' created with make command.\n",
           .print "Error. Left curly brace not closed with a right curly brace.\n"]) := by
  decide

/-- C18 on the code: in `make <a/ ; make <b>;` the first `<` is never closed; the
validation pass prints its message and goes on, and `translate` executes a `make` whose
path runs on to the next `>`: a `stat` and a `mkdir -p` of
`C:\w\a\t_EndOfLine\t_make\t_LessThanSign\b`, and the run ends with status 0. -/
theorem unclosed_path_still_executes :
    main 260 "make <a/ ; make <b>;" "C:\\w" ["C:", "C:\\w"] 30
      = some (.finished 0
          ["C:", "C:\\w", "C:\\w\\a", "C:\\w\\a\\t_EndOfLine", "C:\\w\\a\\t_EndOfLine\\t_make",
           "C:\\w\\a\\t_EndOfLine\\t_make\\t_LessThanSign",
           "C:\\w\\a\\t_EndOfLine\\t_make\\t_LessThanSign\\b"]
          [.print "Current directory: C:\\w\n",
           .print ("Error. Less than sign was not followed by a valid path name: "
             ++ "<INVALID_PATH_NAME\n"),
           .stat "C:\\w\\a\\t_EndOfLine\\t_make\\t_LessThanSign\\b",
           .system "mkdir -p C:\\w\\a\\t_EndOfLine\\t_make\\t_LessThanSign\\b",
           .print ("Success. Path: 'C:\\w\\a\\t_EndOfLine\\t_make\\t_LessThanSign\\b' "
             ++ "created with make command.\n")]) := by
  decide

/-! ## Case folding of characters -/

theorem isUpper_iff (c : Char) : c.isUpper = true ↔ 65 ≤ c.toNat ∧ c.toNat ≤ 90 := by
  simp only [Char.isUpper, Char.toNat, Bool.and_eq_true, decide_eq_true_eq, ge_iff_le]
  constructor
  · rintro ⟨h1, h2⟩
    exact ⟨h1, h2⟩
  · rintro ⟨h1, h2⟩
    exact ⟨h1, h2⟩

theorem mem_capitals_of_isUpper (c : Char) (h : c.isUpper = true) : c ∈ capitals := by
  obtain ⟨h1, h2⟩ := (isUpper_iff c).1 h
  have hc : c = Char.ofNat c.toNat := (Char.ofNat_toNat c).symm
  rw [hc]
  generalize c.toNat = n at h1 h2
  interval_cases n <;> decide

theorem toLower_of_not_upper (c : Char) (h : c.isUpper = false) : c.toLower = c := by
  have : ¬ (65 ≤ c.toNat ∧ c.toNat ≤ 90) := by
    rw [← isUpper_iff, h]; simp
  simp only [Char.toLower, ge_iff_le, this, ↓reduceIte]

theorem toLower_not_upper (c : Char) : c.toLower.isUpper = false := by
  cases h : c.isUpper
  · rw [toLower_of_not_upper c h, h]
  · have hall : ∀ d ∈ capitals, d.toLower.isUpper = false := by decide
    exact hall c (mem_capitals_of_isUpper c h)

theorem toLower_toLower (c : Char) : c.toLower.toLower = c.toLower :=
  toLower_of_not_upper _ (toLower_not_upper c)

theorem isAlpha_toLower (c : Char) : c.toLower.isAlpha = c.isAlpha := by
  cases h : c.isUpper
  · rw [toLower_of_not_upper c h]
  · have hall : ∀ d ∈ capitals, d.toLower.isAlpha = d.isAlpha := by decide
    exact hall c (mem_capitals_of_isUpper c h)

theorem identChar_toLower (c : Char) : identChar c.toLower = identChar c := by
  cases h : c.isUpper
  · rw [toLower_of_not_upper c h]
  · have hall : ∀ d ∈ capitals, identChar d.toLower = identChar d := by decide
    exact hall c (mem_capitals_of_isUpper c h)

/-! ## Symbols and whitespace in the lexer -/

theorem findTokenType_cases {s t : String} (h : findTokenType s = some t) :
    t = "t_go" ∨ t = "t_make" ∨ t = "t_if" ∨ t = "t_ifnot" ∨ t = "t_DirectoryName" := by
  by_cases h1 : streq s "go" = true
  · simp [findTokenType, checkIfKeyWord, h1] at h
    exact Or.inl h.symm
  · by_cases h2 : streq s "make" = true
    · simp [findTokenType, checkIfKeyWord, h1, h2] at h
      exact Or.inr (Or.inl h.symm)
    · by_cases h3 : streq s "if" = true
      · simp [findTokenType, checkIfKeyWord, h1, h2, h3] at h
        exact Or.inr (Or.inr (Or.inl h.symm))
      · by_cases h4 : streq s "ifnot" = true
        · simp [findTokenType, checkIfKeyWord, h1, h2, h3, h4] at h
          exact Or.inr (Or.inr (Or.inr (Or.inl h.symm)))
        · simp [findTokenType, checkIfKeyWord, h1, h2, h3, h4] at h
          exact Or.inr (Or.inr (Or.inr (Or.inr h.2.symm)))

theorem lowercase_not_symbolLine (l : List Char) :
    isSymbolLine (String.mk (l.map Char.toLower)) = false := by
  have hlow : ∀ c ∈ l.map Char.toLower, c.isUpper = false := by
    intro c hc
    obtain ⟨d, _, rfl⟩ := List.mem_map.1 hc
    exact toLower_not_upper d
  have hsym : ∀ s ∈ symbolLines, ∃ c ∈ s.data, c.isUpper = true := by decide
  cases h : isSymbolLine (String.mk (l.map Char.toLower)) with
  | false => rfl
  | true =>
    exfalso
    have hmem : String.mk (l.map Char.toLower) ∈ symbolLines := by
      simpa [isSymbolLine] using h
    obtain ⟨c, hc, hup⟩ := hsym _ hmem
    rw [hlow c hc] at hup
    exact Bool.false_ne_true hup

/-- The flush of a lexeme writes no symbol line. -/
theorem flush_symbolLines {holder : List Char} {out : List String} {hd : List Char}
    {out1 : List String} (h : flush holder out = .ok (hd, out1)) :
    out1.filter isSymbolLine = out.filter isSymbolLine := by
  unfold flush at h
  split at h
  · split at h
    · simp at h
    · next t ht =>
      split at h
      · simp only [Except.ok.injEq, Prod.mk.injEq] at h
        rw [← h.2, List.filter_append]
        simp [lowercase_not_symbolLine]
      · split at h
        · simp only [Except.ok.injEq, Prod.mk.injEq] at h
          rw [← h.2, List.filter_append]
          rcases findTokenType_cases ht with rfl | rfl | rfl | rfl | rfl <;>
            simp [isSymbolLine, symbolLines]
        · split at h
          · simp at h
          · simp only [Except.ok.injEq, Prod.mk.injEq] at h
            rw [h.2]
  · simp only [Except.ok.injEq, Prod.mk.injEq] at h
    rw [h.2]

theorem isbracket_symbolLine {c : Char} {b : String} (h : isbracket c = some b) :
    isSymbolLine b = true := by
  unfold isbracket at h
  split at h
  · simp at h; subst h; decide
  · split at h
    · simp at h; subst h; decide
    · split at h
      · simp at h; subst h; decide
      · split at h
        · simp at h; subst h; decide
        · simp at h

/-- One step of the lexer loop that goes on: the symbol lines written are those of the
character read. -/
theorem lexLoop_cons_symbolLines (PATH_MAX : Nat) (c : Char) (cs holder : List Char)
    (out lines : List String) (h : lexLoop PATH_MAX (c :: cs) holder out = .ok lines) :
    ∃ holder1 out1, lexLoop PATH_MAX cs holder1 out1 = .ok lines ∧
      out1.filter isSymbolLine = out.filter isSymbolLine ++ sepLines c := by
  rw [lexLoop] at h
  split at h
  · next r heq =>
    split at heq
    · subst h
      unfold flush at heq
      split at heq
      · split at heq
        · simp at heq
        · split at heq
          · simp at heq
          · split at heq
            · simp at heq
            · split at heq
              · simp at heq
              · simp at heq
      · simp at heq
    · simp at heq
  · next hd out1 heq =>
    have hfil : out1.filter isSymbolLine = out.filter isSymbolLine := by
      split at heq
      · exact flush_symbolLines heq
      · simp only [Except.ok.injEq, Prod.mk.injEq] at heq
        rw [heq.2]
    split at h
    · next h1 =>
      refine ⟨_, _, h, ?_⟩
      simp [sepLines, h1, List.filter_append, hfil, isSymbolLine, symbolLines]
    · next h1 =>
      split at h
      · next h2 =>
        refine ⟨_, _, h, ?_⟩
        simp [sepLines, h1, h2, List.filter_append, hfil, isSymbolLine, symbolLines]
      · next h2 =>
        split at h
        · next h3 =>
          refine ⟨_, _, h, ?_⟩
          simp [sepLines, h1, h2, h3, List.filter_append, hfil, isSymbolLine, symbolLines]
        · next h3 =>
          split at h
          · next b hb =>
            refine ⟨_, _, h, ?_⟩
            simp [sepLines, h1, h2, h3, hb, List.filter_append, hfil,
              isbracket_symbolLine hb]
          · next hb =>
            have hs : sepLines c = [] := by
              simp [sepLines, h1, h2, h3, hb]
            split at h
            · simp at h
            · split at h
              · split at h
                · exact ⟨_, _, h, by rw [hs, hfil]; simp⟩
                · simp at h
              · exact ⟨_, _, h, by rw [hs, hfil]; simp⟩

theorem lexLoop_symbolLines (PATH_MAX : Nat) (cs : List Char) :
    ∀ (holder : List Char) (out lines : List String),
      lexLoop PATH_MAX cs holder out = .ok lines →
      lines.filter isSymbolLine = out.filter isSymbolLine ++ cs.flatMap sepLines := by
  induction cs with
  | nil =>
    intro holder out lines h
    simp only [lexLoop, LexResult.ok.injEq] at h
    simp [h]
  | cons c cs ih =>
    intro holder out lines h
    obtain ⟨holder1, out1, h1, h2⟩ := lexLoop_cons_symbolLines PATH_MAX c cs holder out lines h
    rw [ih holder1 out1 lines h1, h2]
    simp

theorem isSeparator_of_isspace {w : Char} (h : isspace w = true) : isSeparator w = true := by
  simp [isSeparator, h]

theorem sepLines_of_isspace {w : Char} (h : isspace w = true) : sepLines w = [] := by
  have key : ∀ d : Char, isspace d = false → w ≠ d := by
    intro d hd hwd
    rw [hwd, hd] at h
    exact Bool.false_ne_true h
  have kv : ∀ (d : Char) (n : UInt32), d.val = n → isspace d = false → w.val ≠ n := by
    intro d n hn hd hwd
    exact key d hd (Char.ext (hwd.trans hn.symm))
  have h1 := key ';' (by decide)
  have h2 := key '/' (by decide)
  have h3 := key '*' (by decide)
  have h4 := kv (Char.ofNat 123) 123 (by decide) (by decide)
  have h5 := kv (Char.ofNat 125) 125 (by decide) (by decide)
  have h6 := kv '<' 60 (by decide) (by decide)
  have h7 := kv '>' 62 (by decide) (by decide)
  simp [sepLines, isbracket, h1, h2, h3, h4, h5, h6, h7]

/-- A separator with a lexeme in `holder` that cannot be flushed: the lexer ends there. -/
theorem lexLoop_separator_error (PATH_MAX : Nat) (d : Char) (rest holder : List Char)
    (out : List String) (r : LexResult)
    (hd : isSeparator d = true) (hfl : flush holder out = .error r) :
    lexLoop PATH_MAX (d :: rest) holder out = r := by
  simp only [isSeparator] at hd
  rw [lexLoop]
  simp only [hd, ↓reduceIte, hfl]

theorem flush_nil (out : List String) : flush [] out = .ok ([], out) := by
  simp [flush]

/-- Whitespace read with `holder` empty changes nothing. -/
theorem lexLoop_space (PATH_MAX : Nat) (hpm : 1 ≤ PATH_MAX) (w : Char) (rest : List Char)
    (out : List String) (hw : isspace w = true) :
    lexLoop PATH_MAX (w :: rest) [] out = lexLoop PATH_MAX rest [] out := by
  rw [lexLoop_separator PATH_MAX hpm w rest [] out out (isSeparator_of_isspace hw)
    (flush_nil out), sepLines_of_isspace hw, List.append_nil]

/-- Whitespace right before a separator changes nothing. -/
theorem lexLoop_space_before (PATH_MAX : Nat) (hpm : 1 ≤ PATH_MAX) (w sym : Char)
    (post holder : List Char) (out : List String)
    (hw : isspace w = true) (hs : isSeparator sym = true) :
    lexLoop PATH_MAX (w :: sym :: post) holder out
      = lexLoop PATH_MAX (sym :: post) holder out := by
  cases hfl : flush holder out with
  | error r =>
    rw [lexLoop_separator_error PATH_MAX w _ holder out r (isSeparator_of_isspace hw) hfl,
      lexLoop_separator_error PATH_MAX sym _ holder out r hs hfl]
  | ok p =>
    obtain ⟨hd, out1⟩ := p
    have hnil := flush_holder holder out hd out1 hfl
    subst hnil
    rw [lexLoop_separator PATH_MAX hpm w _ holder out out1 (isSeparator_of_isspace hw) hfl,
      sepLines_of_isspace hw, List.append_nil,
      lexLoop_separator PATH_MAX hpm sym post [] out1 out1 hs (flush_nil out1),
      lexLoop_separator PATH_MAX hpm sym post holder out out1 hs hfl]

/-- Whitespace right after a separator changes nothing. -/
theorem lexLoop_space_after (PATH_MAX : Nat) (hpm : 1 ≤ PATH_MAX) (w sym : Char)
    (post holder : List Char) (out : List String)
    (hw : isspace w = true) (hs : isSeparator sym = true) :
    lexLoop PATH_MAX (sym :: w :: post) holder out
      = lexLoop PATH_MAX (sym :: post) holder out := by
  cases hfl : flush holder out with
  | error r =>
    rw [lexLoop_separator_error PATH_MAX sym _ holder out r hs hfl,
      lexLoop_separator_error PATH_MAX sym _ holder out r hs hfl]
  | ok p =>
    obtain ⟨hd, out1⟩ := p
    have hnil := flush_holder holder out hd out1 hfl
    subst hnil
    rw [lexLoop_separator PATH_MAX hpm sym _ holder out out1 hs hfl,
      lexLoop_separator PATH_MAX hpm sym _ holder out out1 hs hfl,
      lexLoop_space PATH_MAX hpm w post _ hw]

/-- Two continuations on which the lexer agrees in every state: it agrees on them after
any common beginning. -/
theorem lexLoop_congr (PATH_MAX : Nat) (xs ys : List Char)
    (h : ∀ holder out, lexLoop PATH_MAX xs holder out = lexLoop PATH_MAX ys holder out)
    (pre : List Char) :
    ∀ holder out, lexLoop PATH_MAX (pre ++ xs) holder out
      = lexLoop PATH_MAX (pre ++ ys) holder out := by
  induction pre with
  | nil => exact h
  | cons c cs ih =>
    intro holder out
    rw [List.cons_append, List.cons_append, lexLoop, lexLoop]
    simp only [ih]

/-- C21: for every source text that the lexer accepts, the symbol lines of `code.lex` are,
in order, the lines of the symbol characters of the source, one for each; and a
whitespace character put right before or right after a symbol (or any separator)
changes nothing in what the lexer answers. So `make<a/b>;` and `make < a / b > ;` give
the same lines. `PATH_MAX` is at least 1. -/
theorem symbols_single_whitespace_free (PATH_MAX : Nat) (hpm : 1 ≤ PATH_MAX) :
    (∀ (src : String) (lines : List String), lexer PATH_MAX src = .ok lines →
      lines.filter isSymbolLine = src.data.flatMap sepLines) ∧
    (∀ (pre post : List Char) (sym w : Char), isSeparator sym = true → isspace w = true →
      lexer PATH_MAX (String.mk (pre ++ w :: sym :: post))
        = lexer PATH_MAX (String.mk (pre ++ sym :: post)) ∧
      lexer PATH_MAX (String.mk (pre ++ sym :: w :: post))
        = lexer PATH_MAX (String.mk (pre ++ sym :: post))) ∧
    lexer 260 "make<a/b>;"
      = .ok ["t_make", "t_LessThanSign", "a", "t_ForwardSlash", "b", "t_GreaterThanSign",
          "t_EndOfLine"] ∧
    lexer 260 "make < a / b > ;"
      = .ok ["t_make", "t_LessThanSign", "a", "t_ForwardSlash", "b", "t_GreaterThanSign",
          "t_EndOfLine"] := by
  refine ⟨?_, ?_, by decide, by decide⟩
  · intro src lines h
    have := lexLoop_symbolLines PATH_MAX src.data [] [] lines h
    simpa using this
  · intro pre post sym w hs hw
    exact ⟨lexLoop_congr PATH_MAX _ _
        (fun holder out => lexLoop_space_before PATH_MAX hpm w sym post holder out hw hs)
        pre [] [],
      lexLoop_congr PATH_MAX _ _
        (fun holder out => lexLoop_space_after PATH_MAX hpm w sym post holder out hw hs)
        pre [] []⟩

theorem symbols_single_whitespace_free_witness :
    (["t_go", "t_LessThanSign", "x", "t_GreaterThanSign", "t_EndOfLine"].filter isSymbolLine
      = "go<x>;".data.flatMap sepLines) ∧
    lexer 260 (String.mk ("go".data ++ ' ' :: '<' :: "x>;".data))
      = lexer 260 (String.mk ("go".data ++ '<' :: "x>;".data)) ∧
    lexer 260 (String.mk ("go".data ++ '<' :: ' ' :: "x>;".data))
      = lexer 260 (String.mk ("go".data ++ '<' :: "x>;".data)) :=
  ⟨(symbols_single_whitespace_free 260 (by decide)).1 "go<x>;"
      ["t_go", "t_LessThanSign", "x", "t_GreaterThanSign", "t_EndOfLine"] (by decide),
   ((symbols_single_whitespace_free 260 (by decide)).2.1 "go".data "x>;".data '<' ' '
      (by decide) (by decide)).1,
   ((symbols_single_whitespace_free 260 (by decide)).2.1 "go".data "x>;".data '<' ' '
      (by decide) (by decide)).2⟩

/-! ## Case folding of directory names and keywords -/

theorem checkIfAlphaString_toLower (l : List Char) :
    checkIfAlphaString (String.mk (l.map Char.toLower)) = checkIfAlphaString (String.mk l) := by
  cases l with
  | nil => rfl
  | cons a r =>
    have hr : (r.map Char.toLower).all (fun d => d.isAlphanum || d == '_')
        = r.all (fun d => d.isAlphanum || d == '_') := by
      induction r with
      | nil => rfl
      | cons c cs ih =>
        have hc := identChar_toLower c
        simp only [identChar] at hc
        simp only [List.map_cons, List.all_cons, ih, hc]
    simp only [checkIfAlphaString, List.map_cons, isAlpha_toLower, hr]

theorem checkIfKeyWord_some_iff (s : String) :
    (checkIfKeyWord s).isSome = true ↔ s = "go" ∨ s = "make" ∨ s = "if" ∨ s = "ifnot" := by
  simp only [checkIfKeyWord, streq, beq_iff_eq]
  constructor
  · intro h
    by_cases h1 : s = "go"
    · exact Or.inl h1
    · by_cases h2 : s = "make"
      · exact Or.inr (Or.inl h2)
      · by_cases h3 : s = "if"
        · exact Or.inr (Or.inr (Or.inl h3))
        · by_cases h4 : s = "ifnot"
          · exact Or.inr (Or.inr (Or.inr h4))
          · simp [h1, h2, h3, h4] at h
  · rintro (rfl | rfl | rfl | rfl) <;> decide

/-- A keyword is in lower case: a lexeme whose lower-case form is no keyword is no
keyword. -/
theorem checkIfKeyWord_of_lower (run : List Char)
    (h : checkIfKeyWord (String.mk (run.map Char.toLower)) = none) :
    checkIfKeyWord (String.mk run) = none := by
  cases hk : checkIfKeyWord (String.mk run) with
  | none => rfl
  | some t =>
    exfalso
    have hs : (checkIfKeyWord (String.mk run)).isSome = true := by simp [hk]
    have hl : (checkIfKeyWord (String.mk (run.map Char.toLower))).isSome = false := by
      simp [h]
    rcases (checkIfKeyWord_some_iff _).1 hs with h1 | h1 | h1 | h1 <;>
    · have hd := congrArg String.data h1
      simp only at hd
      rw [hd] at hl
      revert hl
      decide

theorem lexemeLine_of_not_keyword (run : List Char)
    (h : checkIfKeyWord (String.mk run) = none) :
    lexemeLine run = String.mk (run.map Char.toLower) := by
  simp [lexemeLine, h]

/-- An identifier whose lower-case form is no keyword, read from an empty `holder` and
followed by a separator: the lexer writes its lower-case form. -/
theorem lexLoop_directoryName (PATH_MAX : Nat) (run : List Char) (d : Char)
    (rest : List Char) (out : List String)
    (hid : checkIfAlphaString (String.mk run) = true)
    (hkw : checkIfKeyWord (String.mk (run.map Char.toLower)) = none)
    (hlen : run.length ≤ PATH_MAX) (hd : isSeparator d = true) :
    lexLoop PATH_MAX (run ++ d :: rest) [] out
      = lexLoop PATH_MAX rest [] (out ++ [String.mk (run.map Char.toLower)] ++ sepLines d) := by
  have hall : ∀ c ∈ run, isSeparator c = false :=
    fun c hc => identChar_not_separator (identChar_of_checkIfAlphaString hid c hc)
  have hpos : 1 ≤ run.length := by
    cases run with
    | nil => simp [checkIfAlphaString] at hid
    | cons a r => simp
  have hfl := flush_identifier run out hid
  rw [lexemeLine_of_not_keyword run (checkIfKeyWord_of_lower run hkw)] at hfl
  rw [lexLoop_run PATH_MAX run [] (d :: rest) out hall (by simpa using hlen), List.nil_append,
    lexLoop_separator PATH_MAX (by omega) d rest run out _ hd hfl]

/-- C22, as the claim states it, fails on keywords: the identifier `make` is written as
the keyword line `t_make` and not as the name `make`; and the name `Make` is written as
`make`, which lexed again gives `t_make`, so that `Make` and `make` do not give the same
line. -/
theorem casefold_keyword_counterexample :
    checkIfAlphaString "make" = true ∧
    lexer 260 "make;" = .ok ["t_make", "t_EndOfLine"] ∧
    checkIfAlphaString "Make" = true ∧
    lexer 260 "Make;" = .ok ["make", "t_EndOfLine"] := by
  decide

/-- C22, amended: for every identifier `s` of at most `PATH_MAX` characters whose
lower-case form is none of the keywords, lexing `s` followed by a separator writes
exactly one line for it, `s` in lower case; lexing that line again writes the same line;
and any identifier with the same lower-case form writes that line too. -/
theorem casefold_idempotent (PATH_MAX : Nat) (run : List Char) (d : Char)
    (rest : List Char) (out : List String)
    (hid : checkIfAlphaString (String.mk run) = true)
    (hkw : checkIfKeyWord (String.mk (run.map Char.toLower)) = none)
    (hlen : run.length ≤ PATH_MAX) (hd : isSeparator d = true) :
    lexLoop PATH_MAX (run ++ d :: rest) [] out
      = lexLoop PATH_MAX rest [] (out ++ [String.mk (run.map Char.toLower)] ++ sepLines d) ∧
    lexLoop PATH_MAX (run.map Char.toLower ++ d :: rest) [] out
      = lexLoop PATH_MAX rest [] (out ++ [String.mk (run.map Char.toLower)] ++ sepLines d) ∧
    ∀ run2 : List Char, run2.map Char.toLower = run.map Char.toLower →
      lexLoop PATH_MAX (run2 ++ d :: rest) [] out
        = lexLoop PATH_MAX rest [] (out ++ [String.mk (run.map Char.toLower)] ++ sepLines d) := by
  have key : ∀ run2 : List Char, run2.map Char.toLower = run.map Char.toLower →
      lexLoop PATH_MAX (run2 ++ d :: rest) [] out
        = lexLoop PATH_MAX rest [] (out ++ [String.mk (run.map Char.toLower)] ++ sepLines d) := by
    intro run2 h2
    have hid2 : checkIfAlphaString (String.mk run2) = true := by
      rw [← checkIfAlphaString_toLower, h2, checkIfAlphaString_toLower, hid]
    have hlen2 : run2.length ≤ PATH_MAX := by
      have := congrArg List.length h2
      simp only [List.length_map] at this
      omega
    rw [← h2]
    exact lexLoop_directoryName PATH_MAX run2 d rest out hid2 (by rw [h2]; exact hkw) hlen2 hd
  refine ⟨key run rfl, key (run.map Char.toLower) ?_, key⟩
  rw [List.map_map]
  apply List.map_congr_left
  intro c _
  exact toLower_toLower c

theorem casefold_idempotent_witness :
    lexLoop 260 ("AA".data ++ ';' :: []) [] []
      = lexLoop 260 [] [] ([] ++ [String.mk ("AA".data.map Char.toLower)] ++ sepLines ';') ∧
    lexLoop 260 ("AA".data.map Char.toLower ++ ';' :: []) [] []
      = lexLoop 260 [] [] ([] ++ [String.mk ("AA".data.map Char.toLower)] ++ sepLines ';') ∧
    lexLoop 260 ("aa".data ++ ';' :: []) [] []
      = lexLoop 260 [] [] ([] ++ [String.mk ("AA".data.map Char.toLower)] ++ sepLines ';') :=
  ⟨(casefold_idempotent 260 "AA".data ';' [] [] (by decide) (by decide) (by decide)
      (by decide)).1,
   (casefold_idempotent 260 "AA".data ';' [] [] (by decide) (by decide) (by decide)
      (by decide)).2.1,
   (casefold_idempotent 260 "AA".data ';' [] [] (by decide) (by decide) (by decide)
      (by decide)).2.2 "aa".data (by decide)⟩

/-- A line that none of the four tests of `translate` takes for a keyword line is read
over. -/
theorem translate_other (fuel : Nat) (t : String) (toks : List String) (h cwd : String)
    (fs : FS) (out : List Event)
    (ht : fitsRead t = true)
    (h1 : strcaseeq t "t_go" = false) (h2 : strcaseeq t "t_make" = false)
    (h3 : strcaseeq t "t_if" = false) (h4 : strcaseeq t "t_ifnot" = false) :
    translate (fuel + 1) ⟨t :: toks, false, h, cwd, fs, out⟩
      = translate fuel ⟨toks, false, t, cwd, fs, out⟩ := by
  rw [translate]
  simp only [fgetsOk, fgets, ht, List.isEmpty_cons, Bool.not_false, Bool.not_true,
    Bool.false_eq_true, ↓reduceIte, h1, h2, h3, h4, andThen_some_ret]

/-- C24 on the code: `translate` reads over a `t_RightCurlyBrace` like over any line that
is no keyword line, so the block of a taken `if` does not end at its `}`. In
`if <a> { go <a>; } make <b>;` with `C:\w\a` existing, the call of `ifPath_maker` returns
only at the end of the stream, after the `make` behind the block has run inside it from
the directory the `go` of the block changed to, and with the message that the brace was
not closed; the run prints that message for the balanced program. Both statements run
once, in the order of the source. -/
theorem block_runs_past_closing_brace :
    (∀ (fuel : Nat) (rest : List String) (h cwd : String) (fs : FS) (out : List Event),
      translate (fuel + 1) ⟨"t_RightCurlyBrace" :: rest, false, h, cwd, fs, out⟩
        = translate fuel ⟨rest, false, "t_RightCurlyBrace", cwd, fs, out⟩) ∧
    lexer 260 "if <a> \x7b go <a>; \x7d make <b>;"
      = .ok ["t_if", "t_LessThanSign", "a", "t_GreaterThanSign", "t_LeftCurlyBrace",
          "t_go", "t_LessThanSign", "a", "t_GreaterThanSign", "t_EndOfLine",
          "t_RightCurlyBrace",
          "t_make", "t_LessThanSign", "b", "t_GreaterThanSign", "t_EndOfLine"] ∧
    ifPath_maker 40 ⟨["t_LessThanSign", "a", "t_GreaterThanSign", "t_LeftCurlyBrace",
          "t_go", "t_LessThanSign", "a", "t_GreaterThanSign", "t_EndOfLine",
          "t_RightCurlyBrace",
          "t_make", "t_LessThanSign", "b", "t_GreaterThanSign", "t_EndOfLine"],
        false, "t_if", "C:\\w", ["C:", "C:\\w", "C:\\w\\a"], []⟩
      = some (.ret ⟨[], true, "t_EndOfLine", "C:\\w\\a",
          ["C:", "C:\\w", "C:\\w\\a", "C:\\w\\a\\b"],
          [.stat "C:\\w\\a",
           .print "Path exists. If statement will be executed.\n",
           .stat "C:\\w\\a",
           .print "Path exists. Go statement executed.\n",
           .print "Current directory is now changed to: C:\\w\\a\n",
           .stat "C:\\w\\a\\b",
           .system "mkdir -p C:\\w\\a\\b",
           .print "Success. Path: 'C:\\w\\a\\b' created with make command.\n",
           .print "Error. Left curly brace not closed with a right curly brace.\n"]⟩) ∧
    main 260 "if <a> \x7b go <a>; \x7d make <b>;" "C:\\w" ["C:", "C:\\w", "C:\\w\\a"] 40
      = some (.finished 0 ["C:", "C:\\w", "C:\\w\\a", "C:\\w\\a\\b"]
          [.print "Current directory: C:\\w\n",
           .stat "C:\\w\\a",
           .print "Path exists. If statement will be executed.\n",
           .stat "C:\\w\\a",
           .print "Path exists. Go statement executed.\n",
           .print "Current directory is now changed to: C:\\w\\a\n",
           .stat "C:\\w\\a\\b",
           .system "mkdir -p C:\\w\\a\\b",
           .print "Success. Path: 'C:\\w\\a\\b' created with make command.\n",
           .print "Error. Left curly brace not closed with a right curly brace.\n"]) := by
  refine ⟨?_, by decide, by decide, by decide⟩
  intro fuel rest h cwd fs out
  exact translate_other fuel "t_RightCurlyBrace" rest h cwd fs out fit_rbrace (by decide)
    (by decide)
    (by decide) (by decide)

/-! ## The end of the source text -/

/-- C26 on the code: the loop of the lexer ends at the end of the input without writing
the lexeme it holds. `make <a>; go` is lexed without its last keyword, which the same
text followed by a blank has; the lone identifier `abc` gives no line at all; and the
illegal run `a-b`, which followed by a blank ends the lexer on the null token type, is
accepted with no line written. -/
theorem final_lexeme_dropped :
    lexer 260 "make <a>; go"
      = .ok ["t_make", "t_LessThanSign", "a", "t_GreaterThanSign", "t_EndOfLine"] ∧
    lexer 260 "make <a>; go "
      = .ok ["t_make", "t_LessThanSign", "a", "t_GreaterThanSign", "t_EndOfLine", "t_go"] ∧
    lexer 260 "abc" = .ok [] ∧
    lexer 260 "abc " = .ok ["abc"] ∧
    lexer 260 "a-b" = .ok [] ∧
    lexer 260 "a-b " = .nullStrcasecmp "a-b" := by
  refine ⟨by decide, by decide, by decide, by decide, by decide, by decide⟩

/-! ## Directory names that read as reserved lines -/

/-- C27 on the code: the lexer writes a directory name in lower case without comparing it
with the reserved lines. `T_EndOfLine` and `t_go` are lexed as directory names to the
lines `t_endofline` and `t_go`, which the interpreter, comparing without case, takes for
the semicolon and for the keyword `go`: `make <a> T_EndOfLine ` runs as `make <a>;`,
`t_go <a>;` runs as `go <a>;`, and in `make <t_astrix/x>;` the name `t_astrix` is an
up-reference. -/
theorem directory_name_read_as_reserved :
    lexer 260 "T_EndOfLine t_go " = .ok ["t_endofline", "t_go"] ∧
    findTokenType "T_EndOfLine" = some "t_DirectoryName" ∧
    findTokenType "t_go" = some "t_DirectoryName" ∧
    strcaseeq "t_endofline" "t_EndOfLine" = true ∧
    "t_go" ∈ reserved ∧
    main 260 "make <a> T_EndOfLine " "C:\\w" ["C:", "C:\\w"] 40
      = some (.finished 0 ["C:", "C:\\w", "C:\\w\\a"]
          [.print "Current directory: C:\\w\n",
           .stat "C:\\w\\a",
           .system "mkdir -p C:\\w\\a",
           .print "Success. Path: 'C:\\w\\a' created with make command.\n"]) ∧
    main 260 "t_go <a>;" "C:\\w" ["C:", "C:\\w", "C:\\w\\a"] 40
      = some (.finished 0 ["C:", "C:\\w", "C:\\w\\a"]
          [.print "Current directory: C:\\w\n",
           .stat "C:\\w\\a",
           .print "Path exists. Go statement executed.\n",
           .print "Current directory is now changed to: C:\\w\\a\n"]) ∧
    main 260 "make <t_astrix/x>;" "C:\\w" ["C:", "C:\\w"] 40
      = some (.finished 0 ["C:", "C:\\w", "C:\\x"]
          [.print "Current directory: C:\\w\n",
           .stat "C:\\x",
           .system "mkdir -p C:\\x",
           .print "Success. Path: 'C:\\x' created with make command.\n"]) := by
  refine ⟨by decide, by decide, by decide, by decide, by decide, by decide, by decide,
    by decide⟩

/-! ## The end of the stream inside a path expression -/

/-- The segment loop at the end of the stream: no read changes the buffer any more, and
the loop, which stops only at `t_GreaterThanSign`, does not stop. -/
theorem segLoop_endOfFile (fuel : Nat) :
    ∀ (s : State) (folder : String), s.toks = [] →
      strcaseeq s.holder2 "t_GreaterThanSign" = false → segLoop fuel s folder = none := by
  induction fuel with
  | zero => intro s folder _ _; rfl
  | succ n ih =>
    intro s folder ht hg
    rw [segLoop]
    have hf : fgets s = { s with eof := true } := by simp [fgets, ht]
    simp only [hf]
    by_cases hs : strcaseeq s.holder2 "t_ForwardSlash" = true
    · simp only [hs, ↓reduceIte, lit_empty_gt, Bool.false_eq_true]
      exact ih _ _ ht lit_empty_gt
    · simp only [hs, Bool.false_eq_true, ↓reduceIte, hg]
      exact ih _ _ ht hg

theorem lit_make_lt : strcaseeq "t_make" "t_LessThanSign" = false := by decide
theorem lit_slash_gt : strcaseeq "t_ForwardSlash" "t_GreaterThanSign" = false := by decide
theorem lit_slash_star : strcaseeq "t_ForwardSlash" "t_Astrix" = false := by decide

/-- The path loop on a name, or on a `/`, that is the last line of the stream. -/
theorem pathLoop_endOfFile (fuel : Nat) (s : State) (folder : String) (ht : s.toks = [])
    (hg : strcaseeq s.holder2 "t_GreaterThanSign" = false)
    (ha : strcaseeq s.holder2 "t_Astrix" = false) : pathLoop fuel s folder = none := by
  cases fuel with
  | zero => rfl
  | succ n =>
    rw [pathLoop]
    have hf : fgets s = { s with eof := true } := by simp [fgets, ht]
    simp only [hg, ha, Bool.false_eq_true, ↓reduceIte]
    by_cases hs : strcaseeq s.holder2 "t_ForwardSlash" = true
    · have hseg := segLoop_endOfFile n { s with eof := true } s.cwd ht hg
      simp only [hs, ↓reduceIte, hf, hg, Bool.and_false, Bool.false_eq_true, hseg]
    · have hseg := segLoop_endOfFile n s s.cwd ht hg
      simp only [hs, Bool.false_eq_true, ↓reduceIte, Bool.false_and, hseg]

/-- The function `make` on `< x` with `x` the last line of the stream, a name or a `/`:
no amount of fuel lets it return. -/
theorem make_endOfFile (fuel : Nat) (x : String) (eof : Bool) (h cwd : String) (fs : FS)
    (out : List Event) (hx : fitsRead x = true)
    (hg : strcaseeq x "t_GreaterThanSign" = false)
    (ha : strcaseeq x "t_Astrix" = false) :
    make fuel ⟨["t_LessThanSign", x], eof, h, cwd, fs, out⟩ = none := by
  simp only [make, fgets, fit_lt, hx, lit_lt_lt, ↓reduceIte]
  rw [pathLoop_endOfFile fuel _ _ rfl hg ha]

/-- The length of a path of one-letter segments. -/
theorem length_appendSegs_replicate (n : Nat) :
    ∀ folder : String, (appendSegs folder (List.replicate n "a")).length
      = folder.length + 2 * n := by
  induction n with
  | zero => intro folder; simp [appendSegs]
  | succ m ih =>
    intro folder
    have := ih (folder ++ "\\" ++ "a")
    simp only [appendSegs, List.replicate_succ, List.foldl_cons] at this ⊢
    rw [this, String.length_append, String.length_append]
    have h1 : "\\".length = 1 := by decide
    have h2 : "a".length = 1 := by decide
    omega

/-- C28 on the code: no handler tests the result of `fgets` inside a path expression. On
the stream of `make <a ` (the lines `t_make`, `t_LessThanSign`, `a`) and on that of
`make </a` (the lexer drops the final `a`: the lines `t_make`, `t_LessThanSign`,
`t_ForwardSlash`), `translate` returns for no amount of fuel, from any state of the buffer,
the working directory and the file system, while the validation pass on the same streams
returns; the run of `make </a` has no result whatever the fuel. And the length of `folder`
is not bounded by `PATH_MAX`: for every `PATH_MAX` the statement `make` on the path of
`PATH_MAX + 1` segments `a` returns after a `stat` of a path of more than `PATH_MAX`
characters, which `folder`, an array of `PATH_MAX` characters, does not hold. -/
theorem unterminated_path_never_returns :
    (∀ (fuel : Nat) (h cwd : String) (fs : FS),
      translate fuel (start ["t_make", "t_LessThanSign", "a"] h cwd fs) = none) ∧
    (∀ (fuel : Nat) (h cwd : String) (fs : FS),
      translate fuel (start ["t_make", "t_LessThanSign", "t_ForwardSlash"] h cwd fs) = none) ∧
    lexer 260 "make <a " = .ok ["t_make", "t_LessThanSign", "a"] ∧
    lexer 260 "make </a" = .ok ["t_make", "t_LessThanSign", "t_ForwardSlash"] ∧
    validate 10 ⟨["t_make", "t_LessThanSign", "a"], false, "", "C:\\w", ["C:", "C:\\w"], []⟩
      = some (.ret ⟨[], true, "a", "C:\\w", ["C:", "C:\\w"],
          [.print ("Error. Less than sign was not followed by a valid path name: "
            ++ "<INVALID_PATH_NAME\n")]⟩) ∧
    validate 10 ⟨["t_make", "t_LessThanSign", "t_ForwardSlash"], false, "", "C:\\w",
        ["C:", "C:\\w"], []⟩
      = some (.ret ⟨[], true, "t_ForwardSlash", "C:\\w", ["C:", "C:\\w"],
          [.print ("Error. Less than sign was not followed by a valid path name: "
            ++ "<INVALID_PATH_NAME\n")]⟩) ∧
    (∀ fuel : Nat, main 260 "make </a" "C:\\w" ["C:", "C:\\w"] fuel = none) ∧
    (∀ (PATH_MAX : Nat) (h cwd : String) (fs : FS), ∃ s' p,
      make (2 * PATH_MAX + 5)
          ⟨pathToks 0 (List.replicate (PATH_MAX + 1) "a") ++ ["t_EndOfLine"], false, h, cwd,
            fs, []⟩ = some (.ret s') ∧
        Event.stat p ∈ s'.out ∧ PATH_MAX < p.length) := by
  have hmake : ∀ (x : String), fitsRead x = true → strcaseeq x "t_GreaterThanSign" = false →
      strcaseeq x "t_Astrix" = false →
      ∀ (fuel : Nat) (s : State), s.toks = ["t_make", "t_LessThanSign", x] → s.eof = false →
        translate fuel s = none := by
    intro x hx hg ha fuel s ht he
    obtain ⟨toks, eof, h, cwd, fs, out⟩ := s
    simp only at ht he
    subst ht he
    cases fuel with
    | zero => rfl
    | succ n => rw [translate_make, make_endOfFile n x false _ cwd fs out hx hg ha]; rfl
  refine ⟨fun fuel h cwd fs => hmake "a" (by decide) (by decide) (by decide) fuel _ rfl rfl,
    fun fuel h cwd fs =>
      hmake "t_ForwardSlash" fit_slash lit_slash_gt lit_slash_star fuel _ rfl rfl,
    by decide, by decide, by decide, by decide, ?_, ?_⟩
  · intro fuel
    have hl : lexer 260 "make </a" = .ok ["t_make", "t_LessThanSign", "t_ForwardSlash"] := by
      decide
    simp only [main, hl]
    cases hv : validate fuel ⟨["t_make", "t_LessThanSign", "t_ForwardSlash"], false, "", "C:\\w",
        ["C:", "C:\\w"], [.print ("Current directory: " ++ "C:\\w" ++ "\n")]⟩ with
    | none => rfl
    | some o =>
      cases o with
      | ret s =>
        simp only
        rw [hmake "t_ForwardSlash" fit_slash lit_slash_gt lit_slash_star fuel _ rfl rfl]
      | exit c s =>
        exfalso
        have h1 : isDirectoryName "t_ForwardSlash" = false := by decide
        have h2 : strcaseeq "t_LessThanSign" "t_LessThanSign" = true := lit_lt_lt
        rcases fuel with _ | _ | _ | _ | _ | n <;>
          simp [validate, check_path, checkLoop, fgets, fit_lt, fit_make, fit_slash, fgetsOk,
            emit, lit_make_lt, h1, h2, lit_slash_star] at hv
  · intro PATH_MAX h cwd fs
    have hall : ∀ b ∈ List.replicate (PATH_MAX + 1) "a", isDirectoryName b = true := by
      intro b hb
      rw [(List.mem_replicate.1 hb).2]
      decide
    have hlen := length_appendSegs_replicate (PATH_MAX + 1) cwd
    have hfit : ∀ b ∈ List.replicate (PATH_MAX + 1) "a", fitsRead b = true := by
      intro b hb
      rw [(List.mem_replicate.1 hb).2]
      decide
    rw [make_wf 0 (List.replicate (PATH_MAX + 1) "a") hall hfit (by simp) (2 * PATH_MAX + 5)
      (by simp; omega) [] false h cwd fs []]
    split
    · exact ⟨_, appendSegs cwd (List.replicate (PATH_MAX + 1) "a"), rfl, by simp,
        by rw [hlen]; omega⟩
    · exact ⟨_, appendSegs cwd (List.replicate (PATH_MAX + 1) "a"), rfl, by simp,
        by rw [hlen]; omega⟩

/-! ## Statements on names that read as reserved lines -/

/-- C3 on the code: the name `t_astrix` is a directory name for the lexer, and its line
reads as an up-reference in `go`. From `C:\a\b`, where `C:\a\b\t_astrix` is no directory,
`go <t_astrix>;` clears the tail of `cwd`, looks up `C:\a`, finds it and commits it: the
working directory is changed by a `go` to a path that does not exist, and the `make <x>;`
that follows creates `C:\a\x`. -/
theorem go_missing_reserved_name_changes_cwd :
    findTokenType "t_astrix" = some "t_DirectoryName" ∧
    lexer 260 "go <t_astrix>; make <x>;"
      = .ok ["t_go", "t_LessThanSign", "t_astrix", "t_GreaterThanSign", "t_EndOfLine",
          "t_make", "t_LessThanSign", "x", "t_GreaterThanSign", "t_EndOfLine"] ∧
    isDir ["C:", "C:\\a", "C:\\a\\b"] "C:\\a\\b\\t_astrix" = false ∧
    main 260 "go <t_astrix>; make <x>;" "C:\\a\\b" ["C:", "C:\\a", "C:\\a\\b"] 40
      = some (.finished 0 ["C:", "C:\\a", "C:\\a\\b", "C:\\a\\x"]
          [.print "Current directory: C:\\a\\b\n",
           .stat "C:\\a",
           .print "Path exists. Go statement executed.\n",
           .print "Current directory is now changed to: C:\\a\n",
           .stat "C:\\a\\x",
           .system "mkdir -p C:\\a\\x",
           .print "Success. Path: 'C:\\a\\x' created with make command.\n"]) := by
  refine ⟨by decide, by decide, by decide, by decide⟩

set_option maxRecDepth 100000 in
/-- C4 on the code: from `C:\a\b` with `C:\a\b\t_astrix` existing, `go <t_astrix>;` commits
`C:\a`, the parent, and not the resolved path `C:\a\b\t_astrix`, which is never looked up;
the next statement resolves against `C:\a`. And a name of 254 characters, which the lexer
accepts, does not fit one read of `fgets`: the validation pass takes the second piece of
the name for a missing `>` and the run ends with status 1 before `go` is called, the
directory of that name existing or not. -/
theorem go_existing_not_committed :
    isDir ["C:", "C:\\a", "C:\\a\\b", "C:\\a\\b\\t_astrix"] "C:\\a\\b\\t_astrix" = true ∧
    main 260 "go <t_astrix>; make <x>;" "C:\\a\\b"
        ["C:", "C:\\a", "C:\\a\\b", "C:\\a\\b\\t_astrix"] 40
      = some (.finished 0 ["C:", "C:\\a", "C:\\a\\b", "C:\\a\\b\\t_astrix", "C:\\a\\x"]
          [.print "Current directory: C:\\a\\b\n",
           .stat "C:\\a",
           .print "Path exists. Go statement executed.\n",
           .print "Current directory is now changed to: C:\\a\n",
           .stat "C:\\a\\x",
           .system "mkdir -p C:\\a\\x",
           .print "Success. Path: 'C:\\a\\x' created with make command.\n"]) ∧
    main 260 ("go <" ++ String.mk (List.replicate 254 'a') ++ ">;") "C:\\w"
        ["C:", "C:\\w", "C:\\w\\" ++ String.mk (List.replicate 254 'a')] 40
      = some (.finished 1 ["C:", "C:\\w", "C:\\w\\" ++ String.mk (List.replicate 254 'a')]
          [.print "Current directory: C:\\w\n",
           .print "Error. Missing greater than sign after path name: <INVALID_PATH_NAME\n"]) := by
  refine ⟨by decide, by decide, by decide⟩

/-- C6 on the code: from `C:\a\b`, where `C:\a\b\t_astrix` is no directory, the condition
`<t_astrix>` is looked up as `C:\a`, which exists: `if <t_astrix> make <c>;` runs the
`make` although the path of the condition does not exist, and `ifnot <t_astrix> make <c>;`
does not run it although the path does not exist. -/
theorem if_ifnot_reserved_name_inverted :
    isDir ["C:", "C:\\a", "C:\\a\\b"] "C:\\a\\b\\t_astrix" = false ∧
    main 260 "if <t_astrix> make <c>;" "C:\\a\\b" ["C:", "C:\\a", "C:\\a\\b"] 40
      = some (.finished 0 ["C:", "C:\\a", "C:\\a\\b", "C:\\a\\c"]
          [.print "Current directory: C:\\a\\b\n",
           .stat "C:\\a",
           .print "Path exists. If statement will be executed.\n",
           .stat "C:\\a\\c",
           .system "mkdir -p C:\\a\\c",
           .print "Success. Path: 'C:\\a\\c' created with make command.\n"]) ∧
    main 260 "ifnot <t_astrix> make <c>;" "C:\\a\\b" ["C:", "C:\\a", "C:\\a\\b"] 40
      = some (.finished 0 ["C:", "C:\\a", "C:\\a\\b"]
          [.print "Current directory: C:\\a\\b\n",
           .stat "C:\\a",
           .print "Path exists. Ifnot command will not be executed.\n"]) := by
  refine ⟨by decide, by decide, by decide⟩

/-- C9 on the code: from `C:\a\b`, where the path `t_astrix` of the condition does not
exist, `if <t_astrix> make <y/z>;` looks up `C:\a`, takes the branch and creates `C:\a\y`
and `C:\a\y\z`: the file system after the statement is not the one before it. -/
theorem if_missing_reserved_name_creates :
    lexer 260 "if <t_astrix> make <y/z>;"
      = .ok ["t_if", "t_LessThanSign", "t_astrix", "t_GreaterThanSign", "t_make",
          "t_LessThanSign", "y", "t_ForwardSlash", "z", "t_GreaterThanSign", "t_EndOfLine"] ∧
    isDir ["C:", "C:\\a", "C:\\a\\b"] "C:\\a\\b\\t_astrix" = false ∧
    main 260 "if <t_astrix> make <y/z>;" "C:\\a\\b" ["C:", "C:\\a", "C:\\a\\b"] 40
      = some (.finished 0 ["C:", "C:\\a", "C:\\a\\b", "C:\\a\\y", "C:\\a\\y\\z"]
          [.print "Current directory: C:\\a\\b\n",
           .stat "C:\\a",
           .print "Path exists. If statement will be executed.\n",
           .stat "C:\\a\\y\\z",
           .system "mkdir -p C:\\a\\y\\z",
           .print "Success. Path: 'C:\\a\\y\\z' created with make command.\n"]) := by
  refine ⟨by decide, by decide, by decide⟩

/-- C10 on the code: from `C:\a\b`, where `C:\a\b\t_astrix` does not exist, the first
`make <t_astrix>;` looks up `C:\a`, reports that the path exists and creates nothing, and
the second looks up `C:`; and in `make <a/t_greaterthansign/c>;` the path loop stops at
the name `t_greaterthansign`, the `/` behind it is no semicolon, and the run ends there,
in `exit(0)`, with nothing created. -/
theorem make_reserved_name_creates_nothing :
    isDir ["C:", "C:\\a", "C:\\a\\b"] "C:\\a\\b\\t_astrix" = false ∧
    main 260 "make <t_astrix>; make <t_astrix>;" "C:\\a\\b" ["C:", "C:\\a", "C:\\a\\b"] 40
      = some (.finished 0 ["C:", "C:\\a", "C:\\a\\b"]
          [.print "Current directory: C:\\a\\b\n",
           .stat "C:\\a",
           .print "Path already exists. Make statement will not be executed.\n",
           .stat "C:",
           .print "Path already exists. Make statement will not be executed.\n"]) ∧
    findTokenType "t_greaterthansign" = some "t_DirectoryName" ∧
    main 260 "make <a/t_greaterthansign/c>; make <a/t_greaterthansign/c>;" "C:\\w"
        ["C:", "C:\\w"] 40
      = some (.finished 0 ["C:", "C:\\w"]
          [.print "Current directory: C:\\w\n",
           .print ("Error. Less than sign was not followed by a valid path name: "
             ++ "<INVALID_PATH_NAME\n"),
           .print ("Error. Less than sign was not followed by a valid path name: "
             ++ "<INVALID_PATH_NAME\n"),
           .print "Error. 'make' statement was not followed by a semicolon. Exiting...\n"]) := by
  refine ⟨by decide, by decide, by decide, by decide⟩

/-- C15 on the code: in `go <a> t_endofline make <b>;` the path expression of `go` is
followed by a directory name and not by a semicolon; the line of that name reads as
`t_EndOfLine`, and `go` looks the path up, changes the working directory to `C:\w\a`, and
the `make` behind it runs and creates `C:\w\a\b`. The same holds for `make`. -/
theorem missing_semicolon_name_read_as_semicolon :
    lexer 260 "go <a> t_endofline make <b>;"
      = .ok ["t_go", "t_LessThanSign", "a", "t_GreaterThanSign", "t_endofline",
          "t_make", "t_LessThanSign", "b", "t_GreaterThanSign", "t_EndOfLine"] ∧
    findTokenType "t_endofline" = some "t_DirectoryName" ∧
    main 260 "go <a> t_endofline make <b>;" "C:\\w" ["C:", "C:\\w", "C:\\w\\a"] 40
      = some (.finished 0 ["C:", "C:\\w", "C:\\w\\a", "C:\\w\\a\\b"]
          [.print "Current directory: C:\\w\n",
           .stat "C:\\w\\a",
           .print "Path exists. Go statement executed.\n",
           .print "Current directory is now changed to: C:\\w\\a\n",
           .stat "C:\\w\\a\\b",
           .system "mkdir -p C:\\w\\a\\b",
           .print "Success. Path: 'C:\\w\\a\\b' created with make command.\n"]) ∧
    main 260 "make <a> t_endofline make <b>;" "C:\\w" ["C:", "C:\\w"] 40
      = some (.finished 0 ["C:", "C:\\w", "C:\\w\\a", "C:\\w\\b"]
          [.print "Current directory: C:\\w\n",
           .stat "C:\\w\\a",
           .system "mkdir -p C:\\w\\a",
           .print "Success. Path: 'C:\\w\\a' created with make command.\n",
           .stat "C:\\w\\b",
           .system "mkdir -p C:\\w\\b",
           .print "Success. Path: 'C:\\w\\b' created with make command.\n"]) := by
  refine ⟨by decide, by decide, by decide, by decide⟩

/-! ## An `if` in the place of the command of an `if` -/

/-- C25 on the code: the taken branch of `ifPath_maker` tests the next line against
`t_go`, `t_make` and `t_LeftCurlyBrace` only, and `translate` has its test for `t_if`
behind it: in `if <a> if <b> make <c>;` with `a` present and `b` absent the inner `if` is
read over, `b` is never looked up, and `c` is created. The inner condition is evaluated
where the inner statement is an `ifnot`, which the last test of `translate` still meets,
and where it stands in a block. -/
theorem nested_if_not_evaluated :
    isDir ["C:", "C:\\w", "C:\\w\\a"] "C:\\w\\b" = false ∧
    main 260 "if <a> if <b> make <c>;" "C:\\w" ["C:", "C:\\w", "C:\\w\\a"] 40
      = some (.finished 0 ["C:", "C:\\w", "C:\\w\\a", "C:\\w\\c"]
          [.print "Current directory: C:\\w\n",
           .stat "C:\\w\\a",
           .print "Path exists. If statement will be executed.\n",
           .stat "C:\\w\\c",
           .system "mkdir -p C:\\w\\c",
           .print "Success. Path: 'C:\\w\\c' created with make command.\n"]) ∧
    main 260 "if <a> ifnot <b> make <c>;" "C:\\w" ["C:", "C:\\w", "C:\\w\\a", "C:\\w\\b"] 40
      = some (.finished 0 ["C:", "C:\\w", "C:\\w\\a", "C:\\w\\b"]
          [.print "Current directory: C:\\w\n",
           .stat "C:\\w\\a",
           .print "Path exists. If statement will be executed.\n",
           .stat "C:\\w\\b",
           .print "Path exists. Ifnot command will not be executed.\n"]) ∧
    main 260 "if <a> \x7b if <b> make <c>; \x7d" "C:\\w" ["C:", "C:\\w", "C:\\w\\a"] 40
      = some (.finished 0 ["C:", "C:\\w", "C:\\w\\a"]
          [.print "Current directory: C:\\w\n",
           .stat "C:\\w\\a",
           .print "Path exists. If statement will be executed.\n",
           .stat "C:\\w\\b",
           .print ("Path: C:\\w\\b does not exist. Command following if clause will not be "
             ++ "executed.\n")]) := by
  refine ⟨by decide, by decide, by decide, by decide⟩

end PathMaker
